import Mathlib

/-!
Environment record store of the `cli` repository.

A shallow embedding of `src/pkg/environment/environment.go` and of
`src/pkg/docker/docker.go`, with the library calls they make, followed by the
properties of the record store and of the job runner.

Conventions of the embedding:

* a Go `string` is a Lean `String`; where the library indexes bytes
  (`uuid.Parse`) the string is first turned into its UTF-8 bytes (`goBytes`);
* a Go `error` is a value of the inductive type `Error` (`nil` is `none`);
* a Go pointer `*Environment` is an `Option Environment` (`nil` is `none`);
* the file system holds the directory `UsedEnvironmentDirectory` only: its
  entries, and for every entry that is a directory the children of it;
  permissions and symbolic links are outside the model;
* a call either returns or panics (`Outcome`); the state of the world is passed
  explicitly.
-/

set_option autoImplicit false

namespace environment

/-! ## Go strings as bytes -/

/-- UTF-8 bytes of one character. -/
def utf8Bytes (c : Char) : List Nat :=
  let v := c.toNat
  if v < 0x80 then [v]
  else if v < 0x800 then [0xC0 + v / 64, 0x80 + v % 64]
  else if v < 0x10000 then [0xE0 + v / 4096, 0x80 + (v / 64) % 64, 0x80 + v % 64]
  else [0xF0 + v / 262144, 0x80 + (v / 4096) % 64, 0x80 + (v / 64) % 64, 0x80 + v % 64]

/-- Bytes of a Go string: `len(s)` is the length of this list and `s[i]` its
`i`-th element. -/
def goBytes (s : String) : List Nat :=
  s.toList.flatMap utf8Bytes

deriving instance DecidableEq for Except

/-! ## `github.com/google/uuid` -/

/-- Type `uuid.UUID`, a `[16]byte`. -/
structure UUID where
  b0 : Fin 256
  b1 : Fin 256
  b2 : Fin 256
  b3 : Fin 256
  b4 : Fin 256
  b5 : Fin 256
  b6 : Fin 256
  b7 : Fin 256
  b8 : Fin 256
  b9 : Fin 256
  b10 : Fin 256
  b11 : Fin 256
  b12 : Fin 256
  b13 : Fin 256
  b14 : Fin 256
  b15 : Fin 256
  deriving DecidableEq, Repr

/-- Value `uuid.Nil`, the zero value of `uuid.UUID`. -/
def UUID.Nil : UUID :=
  ⟨0, 0, 0, 0, 0, 0, 0, 0, 0, 0, 0, 0, 0, 0, 0, 0⟩

/-- Errors of `uuid.Parse`: `invalid UUID length: %d`, `invalid urn prefix: %q`
(with the nine leading bytes) and `invalid UUID format`. -/
inductive UuidError where
  | invalidLength (n : Nat)
  | invalidUrnPrefix (pfx : List Nat)
  | invalidFormat
  deriving DecidableEq, Repr

/-- One digit of `hex.Encode`: the table `"0123456789abcdef"`. -/
def hexDigit (n : Fin 16) : Char :=
  "0123456789abcdef".toList.getD n.val '0'

/-- Function `hex.Encode` on one byte: high nibble, then low nibble. -/
def hexByte (b : Fin 256) : List Char :=
  [hexDigit ⟨b.val / 16, by omega⟩, hexDigit ⟨b.val % 16, by omega⟩]

/-- Function `encodeHex` of the uuid package, as a list of 36 characters. -/
def encodeHex (u : UUID) : List Char :=
  hexByte u.b0 ++ hexByte u.b1 ++ hexByte u.b2 ++ hexByte u.b3 ++ ['-'] ++
  hexByte u.b4 ++ hexByte u.b5 ++ ['-'] ++
  hexByte u.b6 ++ hexByte u.b7 ++ ['-'] ++
  hexByte u.b8 ++ hexByte u.b9 ++ ['-'] ++
  hexByte u.b10 ++ hexByte u.b11 ++ hexByte u.b12 ++ hexByte u.b13 ++
  hexByte u.b14 ++ hexByte u.b15

/-- Method `UUID.String`: the form `xxxxxxxx-xxxx-xxxx-xxxx-xxxxxxxxxxxx`. -/
def UUID.String (u : UUID) : String :=
  String.mk (encodeHex u)

/-- Table `xvalues` of the uuid package: the value of a hexadecimal digit byte,
`none` standing for the entry 255. -/
def xvalue (x : Nat) : Option (Fin 16) :=
  if h : 48 ≤ x ∧ x ≤ 57 then some ⟨x - 48, by omega⟩
  else if h : 65 ≤ x ∧ x ≤ 70 then some ⟨x - 55, by omega⟩
  else if h : 97 ≤ x ∧ x ≤ 102 then some ⟨x - 87, by omega⟩
  else none

/-- Function `xtob` of the uuid package: two hexadecimal digits to a byte. -/
def xtob (x1 x2 : Nat) : Option (Fin 256) :=
  match xvalue x1, xvalue x2 with
  | some h, some l => some ⟨h.val * 16 + l.val, by omega⟩
  | _, _ => none

/-- The byte `s[i]` of a byte string (0 outside it, never read there). -/
def byteAt (s : List Nat) (i : Nat) : Nat :=
  s.getD i 0

/-- Sixteen bytes decoded from the digit pairs at the given offsets of `s`. -/
def parseAt (s : List Nat) (o0 o1 o2 o3 o4 o5 o6 o7 o8 o9 o10 o11 o12 o13 o14 o15 : Nat) :
    Except UuidError UUID :=
  match xtob (byteAt s o0) (byteAt s (o0 + 1)), xtob (byteAt s o1) (byteAt s (o1 + 1)),
    xtob (byteAt s o2) (byteAt s (o2 + 1)), xtob (byteAt s o3) (byteAt s (o3 + 1)),
    xtob (byteAt s o4) (byteAt s (o4 + 1)), xtob (byteAt s o5) (byteAt s (o5 + 1)),
    xtob (byteAt s o6) (byteAt s (o6 + 1)), xtob (byteAt s o7) (byteAt s (o7 + 1)),
    xtob (byteAt s o8) (byteAt s (o8 + 1)), xtob (byteAt s o9) (byteAt s (o9 + 1)),
    xtob (byteAt s o10) (byteAt s (o10 + 1)), xtob (byteAt s o11) (byteAt s (o11 + 1)),
    xtob (byteAt s o12) (byteAt s (o12 + 1)), xtob (byteAt s o13) (byteAt s (o13 + 1)),
    xtob (byteAt s o14) (byteAt s (o14 + 1)), xtob (byteAt s o15) (byteAt s (o15 + 1)) with
  | some c0, some c1, some c2, some c3, some c4, some c5, some c6, some c7,
    some c8, some c9, some c10, some c11, some c12, some c13, some c14, some c15 =>
    .ok ⟨c0, c1, c2, c3, c4, c5, c6, c7, c8, c9, c10, c11, c12, c13, c14, c15⟩
  | _, _, _, _, _, _, _, _, _, _, _, _, _, _, _, _ => .error .invalidFormat

/-- The tail of `uuid.Parse`, on a string already cut to start at the first
digit: dashes at 8, 13, 18 and 23, digit pairs in between. -/
def parseDashed (s : List Nat) : Except UuidError UUID :=
  if byteAt s 8 ≠ 45 ∨ byteAt s 13 ≠ 45 ∨ byteAt s 18 ≠ 45 ∨ byteAt s 23 ≠ 45 then
    .error .invalidFormat
  else
    parseAt s 0 2 4 6 9 11 14 16 19 21 24 26 28 30 32 34

/-- Function `strings.ToLower` on ASCII bytes. -/
def asciiLower (b : Nat) : Nat :=
  if 65 ≤ b ∧ b ≤ 90 then b + 32 else b

/-- Function `uuid.Parse`: the forms of 36 bytes, of 45 bytes (`urn:uuid:`
before the digits), of 38 bytes (one byte before and one after) and of 32
bytes (digits only). -/
def uuidParse (str : String) : Except UuidError UUID :=
  let s := goBytes str
  if s.length = 36 then parseDashed s
  else if s.length = 45 then
    if (s.take 9).map asciiLower ≠ goBytes "urn:uuid:" then
      .error (.invalidUrnPrefix (s.take 9))
    else parseDashed (s.drop 9)
  else if s.length = 38 then parseDashed (s.drop 1)
  else if s.length = 32 then
    parseAt s 0 2 4 6 8 10 12 14 16 18 20 22 24 26 28 30
  else .error (.invalidLength s.length)


/-- Function `uuid.NewRandom` followed by `uuid.Must`, the body of `uuid.New`:
the sixteen bytes `rnd` read from the random source get the version 4 and
the variant bits. -/
def uuidNew (rnd : UUID) : UUID :=
  { rnd with
    b6 := ⟨rnd.b6.val % 16 + 64, by omega⟩
    b8 := ⟨rnd.b8.val % 64 + 128, by omega⟩ }

/-! ## Package `path` -/

/-- The backward scan of `path.Clean` on a `..` element: from the index `w`
down, as long as `w > dotdot` and the byte at `w` is not a slash. -/
def cleanBacktrack (out : List Char) (dotdot : Nat) : Nat → Nat
  | 0 => 0
  | w + 1 =>
    if dotdot < w + 1 ∧ out.getD (w + 1) '/' ≠ '/' then cleanBacktrack out dotdot w else w + 1

/-- Where the loop of `path.Clean` stands: at the start of an element, inside
an element being copied, or on the second dot of a `..` already handled. -/
inductive CleanMode where
  | start
  | copy
  | skip
  deriving DecidableEq, Repr

/-- The loop of `path.Clean`, one byte of the path at a time: `out` is the
buffer written so far and `dotdot` the index the buffer may not shrink below. -/
def cleanLoop (rooted : Bool) : CleanMode → List Char → List Char → Nat → List Char
  | _, [], out, _ => out
  | .skip, _ :: t, out, dotdot => cleanLoop rooted .start t out dotdot
  | .copy, c :: t, out, dotdot =>
    if c = '/' then cleanLoop rooted .start t out dotdot
    else cleanLoop rooted .copy t (out ++ [c]) dotdot
  | .start, c :: t, out, dotdot =>
    if c = '/' then cleanLoop rooted .start t out dotdot
    else if c = '.' ∧ (t = [] ∨ t.head? = some '/') then cleanLoop rooted .start t out dotdot
    else if c = '.' ∧ t.head? = some '.' ∧ (t.tail = [] ∨ t.tail.head? = some '/') then
      if dotdot < out.length then
        cleanLoop rooted .skip t (out.take (cleanBacktrack out dotdot (out.length - 1))) dotdot
      else if rooted then cleanLoop rooted .skip t out dotdot
      else
        let out1 := (if 0 < out.length then out ++ ['/'] else out) ++ ['.', '.']
        cleanLoop rooted .skip t out1 out1.length
    else
      let out1 :=
        if (rooted ∧ out.length ≠ 1) ∨ (¬ rooted ∧ out.length ≠ 0) then out ++ ['/'] else out
      cleanLoop rooted .copy t (out1 ++ [c]) dotdot

/-- Function `path.Clean`. -/
def pathClean (path : String) : String :=
  match path.toList with
  | [] => "."
  | c :: t =>
    let out :=
      if c = '/' then cleanLoop true .start t ['/'] 1
      else cleanLoop false .start (c :: t) [] 0
    if out = [] then "." else String.mk out

/-- Function `path.Join`: the elements from the first non-empty one on, joined
by slashes and cleaned; the empty string when every element is empty. -/
def pathJoin (elem : List String) : String :=
  match elem.dropWhile (fun e => e = "") with
  | [] => ""
  | es => pathClean ("/".intercalate es)

/-! ## Errors, the environment, the YAML library -/

/-- The error numbers of the system calls the model can answer with. -/
inductive Errno where
  | ENOENT
  | ENOTDIR
  | EISDIR
  deriving DecidableEq, Repr

/-- A Go `error` value: an `*os.PathError`, an error of `uuid.Parse`, and the
errors of the YAML decoder (`yaml: unmarshal errors:` with its lines,
`yaml: input error:` around a read error, `io.EOF` on an empty stream, and
any other failure of the library), and an error made by `errors.New`. -/
inductive Error where
  | pathError (op : String) (path : String) (errno : Errno)
  | uuid (err : UuidError)
  | yamlUnmarshal (lines : List String)
  | yamlInput (op : String) (path : String) (errno : Errno)
  | eof
  | yamlOther
  | text (s : String)
  deriving DecidableEq, Repr

/-- Function `os.IsNotExist`. -/
def osIsNotExist : Option Error → Bool
  | some (.pathError _ _ .ENOENT) => true
  | _ => false

/-- Type `Environment` of environment.go: the fields `name` and `uuid`. -/
structure Environment where
  Name : String
  Uuid : UUID
  deriving DecidableEq, Repr

/-- The two calls environment.go makes into `gopkg.in/yaml.v2`, at the type
`Environment`: `yaml.Marshal(e)`, and `yaml.NewDecoder(file).Decode(&e)` as a
function of the bytes of the file, giving the pointer `e` as the decoder
leaves it (`none`: the decoder has set it to nil). -/
structure YamlCodec where
  Marshal : Environment → Except Error String
  Decode : String → Except Error (Option Environment)

/-! ### A model of `gopkg.in/yaml.v2` on the documents of the package

The model is exact on a fragment: the documents the package writes for a
name that is the empty string or a plain name (`isPlainWord`: led by an ASCII
letter or a printable character outside ASCII, continued with letters,
digits, blanks, `-`, `_`, `.`, `"`, a backslash and printable characters
outside ASCII, not ended by a blank, short enough not to be folded, and not a
word yaml.v2 resolves to a boolean or to null), and the documents of
environment_test.go. Outside the fragment the model is not yaml.v2: its
encoder writes the name between double quotes as it is, where the library
chooses among the plain, quoted and literal styles and escapes, and its
decoder answers `Error.yamlOther`. The closed theorems below evaluate the
model inside the fragment only; the general ones hold for every
`YamlCodec`. -/

/-- ASCII letter. -/
def isAsciiLetter (c : Char) : Bool :=
  ('a' ≤ c ∧ c ≤ 'z') ∨ ('A' ≤ c ∧ c ≤ 'Z')

/-- ASCII digit. -/
def isAsciiDigit (c : Char) : Bool :=
  '0' ≤ c ∧ c ≤ '9'

/-- The letter-led keys of `resolveMap` in yaml.v2: scalars that do not
resolve to a string. -/
def resolveWords : List String :=
  ["y", "Y", "yes", "Yes", "YES", "on", "On", "ON", "n", "N", "no", "No", "NO",
   "off", "Off", "OFF", "true", "True", "TRUE", "false", "False", "FALSE",
   "null", "Null", "NULL"]

/-- The keys of `resolveMap` in yaml.v2 that resolve to null and are
written with letters. -/
def nullWords : List String :=
  ["null", "Null", "NULL"]

/-- A character outside ASCII that `is_printable` of yaml.v2 takes and that is
no line break: `U+00A0` to `U+D7FF` and `U+E000` to `U+FFFD`, the line and
paragraph separators and the byte order mark apart. -/
def isWidePrintable (c : Char) : Bool :=
  ((0xA0 ≤ c.toNat ∧ c.toNat ≤ 0xD7FF) ∨ (0xE000 ≤ c.toNat ∧ c.toNat ≤ 0xFFFD)) ∧
    c.toNat ≠ 0x2028 ∧ c.toNat ≠ 0x2029 ∧ c.toNat ≠ 0xFEFF

/-- A character that is no indicator anywhere after the first place of a
plain scalar in a block mapping. -/
def isPlainInner (c : Char) : Bool :=
  isAsciiLetter c || isAsciiDigit c || c = ' ' || c = '-' || c = '_' || c = '.' ||
    c = '"' || c = '\\' || isWidePrintable c

/-- A plain name: the encoder writes it as a plain scalar on the line of its
key. It resolves to a string (it is led by a letter and is no key of
`resolveMap`, or is led by a character outside ASCII), holds no indicator, no
blank at its end, and with a blank in it is at most 74 characters long, so
that no blank is past the width of 80 columns where the emitter folds. -/
def isPlainWord (s : String) : Bool :=
  match s.toList with
  | [] => false
  | c :: t =>
    (isAsciiLetter c || isWidePrintable c) && t.all isPlainInner &&
      t.getLast? != some ' ' && (!(t.contains ' ') || decide (s.length ≤ 74)) &&
      !(resolveWords.contains s)

/-- A plain scalar of the fragment as the decoder meets it on the line of a
key: led by a letter, a digit or a printable character outside ASCII, without
indicator and without a blank at its end. -/
def isPlainText (v : List Char) : Bool :=
  match v with
  | [] => false
  | c :: t =>
    (isAsciiLetter c || isAsciiDigit c || isWidePrintable c) && t.all isPlainInner &&
      t.getLast? != some ' '

/-- The scalar the encoder writes for a string field. -/
def yamlString (s : String) : String :=
  if isPlainWord s then s else "\"" ++ s ++ "\""

/-- Model of `yaml.Marshal` at the type `Environment`: the fields in the order
of the struct, under their `yaml` tags; the identifier is written through
`UUID.MarshalText`, whose text is always a plain scalar. -/
def yamlMarshal (e : Environment) : Except Error String :=
  .ok ("name: " ++ yamlString e.Name ++ "\nuuid: " ++ e.Uuid.String ++ "\n")

/-- The lines of a document, `cur` being the line read so far. -/
def yamlLines : List Char → List Char → List (List Char)
  | [], cur => if cur = [] then [] else [cur]
  | c :: t, cur =>
    if c = '\n' then (if cur = [] then yamlLines t [] else cur :: yamlLines t [])
    else yamlLines t (cur ++ [c])

/-- A line `key: value` cut at its first colon, `key` being what was read so
far; the colon is followed by a blank or ends the line. -/
def yamlKeyValue : List Char → List Char → Option (List Char × List Char)
  | [], _ => none
  | c :: t, key =>
    if c = ':' then
      match t with
      | [] => some (key, [])
      | ' ' :: v => some (key, v)
      | _ => none
    else yamlKeyValue t (key ++ [c])

/-- The string a scalar of the fragment stands for in a field of type string:
a plain scalar gives its own text, whatever it resolves to, except that one
resolving to null leaves the field empty; a text without quote or backslash
between double quotes gives that text. -/
def yamlDecodeString (v : List Char) : Except Error String :=
  if isPlainText v then
    .ok (if nullWords.contains (String.mk v) then "" else String.mk v)
  else
    match v with
    | '"' :: t =>
      if t.getLast? = some '"' ∧ t.dropLast.all (fun x => x ≠ '"' ∧ x ≠ '\\') then
        .ok (String.mk t.dropLast)
      else .error .yamlOther
    | _ => .error .yamlOther

/-- The fields of a mapping put into `e`, line by line: `name` and `uuid` (the
latter through `UUID.UnmarshalText`) are the known keys, any other key is
skipped. -/
def yamlFields : List (List Char) → Environment → Except Error Environment
  | [], e => .ok e
  | line :: rest, e =>
    match yamlKeyValue line [] with
    | none => .error .yamlOther
    | some (key, v) =>
      if key = "name".toList then
        match yamlDecodeString v with
        | .error err => .error err
        | .ok s => yamlFields rest { e with Name := s }
      else if key = "uuid".toList then
        match uuidParse (String.mk v) with
        | .error err => .error (.uuid err)
        | .ok u => yamlFields rest { e with Uuid := u }
      else yamlFields rest e

/-- The value of a scalar as the decoder quotes it in an error. -/
def yamlShort (v : List Char) : String :=
  if 10 < v.length then String.mk (v.take 7) ++ "..." else String.mk v

/-- Model of `yaml.NewDecoder(file).Decode(&e)` with `e` pointing to an empty
`Environment`: an empty stream is `io.EOF`; a document that is one null scalar
sets the pointer to nil; one that is a single plain scalar of letters, digits
and blanks cannot be unmarshalled into the struct; a mapping fills the fields. -/
def yamlDecode (content : String) : Except Error (Option Environment) :=
  match yamlLines content.toList [] with
  | [] => .error .eof
  | [line] =>
    if line = "~".toList ∨ line = "null".toList then .ok none
    else if line.all (fun x => isAsciiLetter x || isAsciiDigit x || x = ' ') ∧
        (line.head?.map isAsciiLetter) = some true then
      .error (.yamlUnmarshal ["line 1: cannot unmarshal !!str `" ++ yamlShort line ++
        "` into environment.Environment"])
    else (yamlFields [line] ⟨"", UUID.Nil⟩).map some
  | lines => (yamlFields lines ⟨"", UUID.Nil⟩).map some

/-- The model of yaml.v2 as a codec. -/
def yamlV2 : YamlCodec :=
  ⟨yamlMarshal, yamlDecode⟩

/-- Modelled from the spec: constant `util.DefaultEnvironmentConfigFileName`,
absent from src/; the record is the file `config.yaml` of the directory of the
environment. -/
def DefaultEnvironmentConfigFileName : String := "config.yaml"

/-! ## The file system under `UsedEnvironmentDirectory` -/

/-- What a directory of the store holds under a name: a regular file or a
directory. -/
inductive Child where
  | file (content : String)
  | dir
  deriving DecidableEq, Repr

/-- What the store directory holds under a name: a regular file, or a
directory with its children. -/
inductive Entry where
  | file (content : String)
  | dir (children : List (String × Child))
  deriving DecidableEq, Repr

/-- The state the package works on: the variable `UsedEnvironmentDirectory`,
the entries of that directory (`none`: the directory does not exist; a name is
looked up from the head of the list) and the lines printed so far. -/
structure World where
  UsedEnvironmentDirectory : String
  entries : Option (List (String × Entry))
  stdout : List String
  deriving DecidableEq, Repr

/-- The value a panic carries: the string of a `panic("...")` of the package,
the string `uuid: Parse(<s>): <err>` of `uuid.MustParse` (kept as its two
parts), the error of the random source in `uuid.New`, or the failure of
`util.EnsureDirectory` on a path. -/
inductive PanicValue where
  | message (s : String)
  | uuidMustParse (s : String) (err : UuidError)
  | randomSource
  | ensureDirectory (path : String)
  deriving DecidableEq, Repr

/-- A call that may panic: it returns a value, or panics with one; either way
the world is left in some state. -/
inductive Outcome (α : Type) where
  | returned (a : α) (w : World)
  | panicked (v : PanicValue) (w : World)
  deriving DecidableEq, Repr

/-- The first thing a directory listing holds under `name`. -/
def lookupName {α : Type} (name : String) : List (String × α) → Option α
  | [] => none
  | (n, x) :: rest => if n = name then some x else lookupName name rest

/-- Function `fmt.Println` of one string. -/
def World.println (w : World) (line : String) : World :=
  { w with stdout := w.stdout ++ [line] }

/-- What the path `<UsedEnvironmentDirectory>/<dir>/<file>` leads to: the
child, or the error number of the path walk (`ENOENT` for a missing store
directory, a missing entry or a missing child, `ENOTDIR` when `<dir>` is a
regular file). -/
def World.walk (w : World) (dir file : String) : Except Errno Child :=
  match w.entries with
  | none => .error .ENOENT
  | some es =>
    match lookupName dir es with
    | none => .error .ENOENT
    | some (.file _) => .error .ENOTDIR
    | some (.dir cs) =>
      match lookupName file cs with
      | none => .error .ENOENT
      | some c => .ok c

/-- Type `os.FileInfo`, as far as the package reads it. -/
structure FileInfo where
  Name : String
  IsDir : Bool
  deriving DecidableEq, Repr

/-- Function `os.Stat` on `path`, the path of `<dir>/<file>` in the store. -/
def osStat (w : World) (path dir file : String) : Except Error FileInfo :=
  match w.walk dir file with
  | .error errno => .error (.pathError "stat" path errno)
  | .ok (.file _) => .ok ⟨file, false⟩
  | .ok .dir => .ok ⟨file, true⟩

/-- Function `os.Open` on `path`, the path of `<dir>/<file>` in the store. -/
def osOpen (w : World) (path dir file : String) : Except Error Child :=
  match w.walk dir file with
  | .error errno => .error (.pathError "open" path errno)
  | .ok c => .ok c

/-- Order of Go strings, byte by byte. -/
def goStringLe (a b : String) : Prop :=
  goBytes a ≤ goBytes b

instance : DecidableRel goStringLe :=
  fun a b => inferInstanceAs (Decidable (goBytes a ≤ goBytes b))

/-- The information `ioutil.ReadDir` gives on an entry of the store. -/
def Entry.info (name : String) : Entry → FileInfo
  | .file _ => ⟨name, false⟩
  | .dir _ => ⟨name, true⟩

/-- Function `ioutil.ReadDir` on `UsedEnvironmentDirectory`: the entries,
sorted by file name. -/
def ioutilReadDir (w : World) : Except Error (List FileInfo) :=
  match w.entries with
  | none => .error (.pathError "open" w.UsedEnvironmentDirectory .ENOENT)
  | some es =>
    .ok ((es.map fun p => p.2.info p.1).insertionSort fun a b => goStringLe a.Name b.Name)

/-- The children of a directory after a file has been written under `file`:
the content replaced where the name is there, a new child at the end where
it is not. -/
def writeChild (file data : String) : List (String × Child) → List (String × Child)
  | [] => [(file, .file data)]
  | (n, c) :: cs => if n = file then (n, .file data) :: cs else (n, c) :: writeChild file data cs

/-- The entries of the store after the first entry named `dir` has been
replaced by `e`. -/
def replaceEntry (dir : String) (e : Entry) : List (String × Entry) → List (String × Entry)
  | [] => []
  | (n, x) :: es => if n = dir then (n, e) :: es else (n, x) :: replaceEntry dir e es

/-- Function `ioutil.WriteFile` on `path`, the path of `<dir>/<file>` in the
store: the open fails with `ENOENT` or `ENOTDIR` as the path walk does, and
with `EISDIR` on a directory; otherwise the file is created or truncated and
holds `data`. -/
def ioutilWriteFile (w : World) (path dir file data : String) : Option Error × World :=
  match w.entries with
  | none => (some (.pathError "open" path .ENOENT), w)
  | some es =>
    match lookupName dir es with
    | none => (some (.pathError "open" path .ENOENT), w)
    | some (.file _) => (some (.pathError "open" path .ENOTDIR), w)
    | some (.dir cs) =>
      match lookupName file cs with
      | some .dir => (some (.pathError "open" path .EISDIR), w)
      | _ => (none, { w with entries := some (replaceEntry dir (.dir (writeChild file data cs)) es) })

/-- Modelled from the spec: function `util.EnsureDirectory`, absent from src/.
It builds the directory of the environment (and the store directory above it
when that is missing), leaves an existing directory as it is, and is fatal to
the caller when the directory cannot be made, here because a regular file
has its name. -/
def EnsureDirectory (w : World) (path dir : String) : Outcome Unit :=
  match w.entries with
  | none => .returned () { w with entries := some [(dir, .dir [])] }
  | some es =>
    match lookupName dir es with
    | none => .returned () { w with entries := some (es ++ [(dir, .dir [])]) }
    | some (.dir _) => .returned () w
    | some (.file _) => .panicked (.ensureDirectory path) w

/-! ## environment.go -/

/-- Method `(*Environment).Save`. -/
def Environment.Save (Y : YamlCodec) (e : Environment) (w : World) : Option Error × World :=
  match Y.Marshal e with
  | .error err => (some err, w)
  | .ok data =>
    match ioutilWriteFile w
      (pathJoin [w.UsedEnvironmentDirectory, e.Uuid.String, DefaultEnvironmentConfigFileName])
      e.Uuid.String DefaultEnvironmentConfigFileName data with
    | (some err, w1) => (some err, w1)
    | (none, w1) => (none, w1)

/-- Function `loadEnvironmentFromConfigFile` on `configPath`, the path of
`<dir>/<file>` in the store. Reading an opened directory fails, which the
decoder reports as an input error. -/
def loadEnvironmentFromConfigFile (Y : YamlCodec) (w : World) (configPath dir file : String) :
    Option Environment × Option Error :=
  match osOpen w configPath dir file with
  | .error err => (none, some err)
  | .ok .dir => (none, some (.yamlInput "read" configPath .EISDIR))
  | .ok (.file content) =>
    match Y.Decode content with
    | .error err => (none, some err)
    | .ok e => (e, none)

/-- Function `Get`. -/
def Get (Y : YamlCodec) (uuid : UUID) (w : World) : (Option Environment × Option Error) × World :=
  let expectedFile :=
    pathJoin [w.UsedEnvironmentDirectory, uuid.String, DefaultEnvironmentConfigFileName]
  let err :=
    match osStat w expectedFile uuid.String DefaultEnvironmentConfigFileName with
    | .error err => some err
    | .ok _ => none
  if osIsNotExist err then
    ((none, err), w.println ("file " ++ expectedFile ++ " does not exist!"))
  else
    match loadEnvironmentFromConfigFile Y w expectedFile uuid.String
      DefaultEnvironmentConfigFileName with
    | (e, some _) => ((e, none), w.println "incorrect file?")
    | (e, none) => ((e, none), w)

/-- The loop of `GetAll` over the items of the directory: `environments` is
the slice built so far. -/
def GetAll.loop (Y : YamlCodec) :
    List FileInfo → List (Option Environment) → World →
      Outcome (List (Option Environment) × Option Error)
  | [], environments, w => .returned (environments, none) w
  | i :: items, environments, w =>
    if i.IsDir then
      match uuidParse i.Name with
      | .error err => .panicked (.uuidMustParse i.Name err) w
      | .ok u =>
        match Get Y u w with
        | ((e, none), w1) => GetAll.loop Y items (environments ++ [e]) w1
        | ((_, some _), w1) => GetAll.loop Y items environments w1
    else GetAll.loop Y items environments w

/-- Function `GetAll`. -/
def GetAll (Y : YamlCodec) (w : World) : Outcome (List (Option Environment) × Option Error) :=
  match ioutilReadDir w with
  | .error err => .returned ([], some err) w
  | .ok items => GetAll.loop Y items [] w

/-- Function `Create`; `rnd` is what `uuid.New` reads from the random source
(`none`: the read fails and `uuid.New` panics). -/
def Create (Y : YamlCodec) (name : String) (rnd : Option UUID) (w : World) :
    Outcome (Option Environment × Option Error) :=
  match rnd with
  | none => .panicked .randomSource w
  | some r =>
    let environment : Environment := { Name := name, Uuid := uuidNew r }
    let newEnvironmentDirectory := pathJoin [w.UsedEnvironmentDirectory, environment.Uuid.String]
    match EnsureDirectory w newEnvironmentDirectory environment.Uuid.String with
    | .panicked v w1 => .panicked v w1
    | .returned _ w1 =>
      match environment.Save Y w1 with
      | (some _, w2) => .panicked (.message ("I wansnt able to save: " ++ environment.Uuid.String)) w2
      | (none, w2) => .returned (some environment, none) w2


/-- The relation between a directory of the listing and the entry `GetAll`
gives for it: the environment its record decodes to. -/
def holdsRecord (Y : YamlCodec) (w : World) (i : FileInfo) (r : Option Environment) : Prop :=
  ∃ content e, w.walk i.Name DefaultEnvironmentConfigFileName = .ok (.file content) ∧
    Y.Decode content = .ok (some e) ∧ r = some e

/-! ## The installed components -/

/-- Modelled from the spec: entity `InstalledComponentVersion`, absent from
src/ (environment_test.go builds its values): the owning environment, the
name, type, version and image of the component, its working directory, its
mounts and its commands, the latter carried as data of a type `Command`. -/
structure InstalledComponentVersion (Command : Type) where
  EnvironmentRef : UUID
  Name : String
  ComponentType : String
  Version : String
  Image : String
  WorkDirectory : String
  Mounts : List String
  Commands : List Command

/-- Modelled from the spec: entity `Environment` with its list `installed`,
the field `Installed` that environment_test.go sets and the struct of
environment.go does not have. -/
structure InstalledEnvironment (Command : Type) where
  Name : String
  Uuid : UUID
  Installed : List (InstalledComponentVersion Command)

/-- Modelled from the spec: the linear scan of `find_component`, the first
entry of the list whose name equals `name`. -/
def scanInstalled {Command : Type} (name : String) :
    List (InstalledComponentVersion Command) → Option (InstalledComponentVersion Command)
  | [] => none
  | c :: rest => if c.Name = name then some c else scanInstalled name rest

/-- Modelled from the spec: method `GetComponentByName`, absent from src/
(environment_test.go calls it): the first entry of `installed` whose name
matches exactly, or the error `no such component installed` when none does. -/
def InstalledEnvironment.GetComponentByName {Command : Type} (e : InstalledEnvironment Command)
    (name : String) : Option (InstalledComponentVersion Command) × Option Error :=
  match scanInstalled name e.Installed with
  | some c => (some c, none)
  | none => (none, some (.text "no such component installed"))

/-! ## Worlds and values of environment_test.go -/

/-- Identifier `10d52c05-029e-4794-a790-79d6c2af40b6` of `TestEnvironment_Save`. -/
def uuidSave : UUID :=
  ⟨0x10, 0xd5, 0x2c, 0x05, 0x02, 0x9e, 0x47, 0x94, 0xa7, 0x90, 0x79, 0xd6, 0xc2, 0xaf, 0x40, 0xb6⟩

/-- Identifier `66d4cd70-4375-4737-b6ce-7e13f3cc93f9` of `TestGet`. -/
def uuidIncorrect : UUID :=
  ⟨0x66, 0xd4, 0xcd, 0x70, 0x43, 0x75, 0x47, 0x37, 0xb6, 0xce, 0x7e, 0x13, 0xf3, 0xcc, 0x93, 0xf9⟩

/-- Identifier `816789aa-7839-4f2b-ac74-b66344e4fbe8` of `TestGet`. -/
def uuidMissing : UUID :=
  ⟨0x81, 0x67, 0x89, 0xaa, 0x78, 0x39, 0x4f, 0x2b, 0xac, 0x74, 0xb6, 0x63, 0x44, 0xe4, 0xfb, 0xe8⟩

/-- Identifier `45764648-162a-4526-bdd0-71a438fd6ceb` of `TestGetAll`. -/
def uuidE2 : UUID :=
  ⟨0x45, 0x76, 0x46, 0x48, 0x16, 0x2a, 0x45, 0x26, 0xbd, 0xd0, 0x71, 0xa4, 0x38, 0xfd, 0x6c, 0xeb⟩

/-- Identifier `4af1705c-c48f-4ca2-be08-53c673da835c` of `TestGetAll`. -/
def uuidE1 : UUID :=
  ⟨0x4a, 0xf1, 0x70, 0x5c, 0xc4, 0x8f, 0x4c, 0xa2, 0xbe, 0x08, 0x53, 0xc6, 0x73, 0xda, 0x83, 0x5c⟩

/-- Identifier `b03bb900-5d49-4421-a45e-eeeb40e0a5d5` of `Test_create`. -/
def uuidCreate : UUID :=
  ⟨0xb0, 0x3b, 0xb9, 0x00, 0x5d, 0x49, 0x44, 0x21, 0xa4, 0x5e, 0xee, 0xeb, 0x40, 0xe0, 0xa5, 0xd5⟩

/-- The store directory of the tests, a temporary directory. -/
def testRoot : String := "/tmp/e-environment/environments"

/-- A store that holds the given entries, nothing printed yet. -/
def testWorld (es : List (String × Entry)) : World :=
  ⟨testRoot, some es, []⟩

/-- The record `TestGetAll` puts under `45764648-162a-4526-bdd0-71a438fd6ceb`. -/
def recordE2 : String :=
  "name: e2\nuuid: 45764648-162a-4526-bdd0-71a438fd6ceb\ninstalled: []"

/-- The record `TestGetAll` puts under `4af1705c-c48f-4ca2-be08-53c673da835c`. -/
def recordE1 : String :=
  "name: e1\nuuid: 4af1705c-c48f-4ca2-be08-53c673da835c\ninstalled: []"

/-- Identifier `fccf6810-32c4-4500-9414-2de45d2c4097` of `TestGet`. -/
def uuidCorrect : UUID :=
  ⟨0xfc, 0xcf, 0x68, 0x10, 0x32, 0xc4, 0x45, 0x00, 0x94, 0x14, 0x2d, 0xe4, 0x5d, 0x2c, 0x40, 0x97⟩

/-- The record of the case `correct` of `TestGet`. -/
def recordCorrect : String :=
  "name: e1\nuuid: fccf6810-32c4-4500-9414-2de45d2c4097\ninstalled: []"

/-- The store of the case `correct` of `TestGet`. -/
def storeCorrect : World :=
  testWorld
    [("fccf6810-32c4-4500-9414-2de45d2c4097", .dir [("config.yaml", .file recordCorrect)])]

/-- The store of the case `correct` of `TestGet` after the environment read
from it was saved again. -/
def storeCorrectSaved : World :=
  testWorld
    [("fccf6810-32c4-4500-9414-2de45d2c4097",
      .dir [("config.yaml", .file "name: e1\nuuid: fccf6810-32c4-4500-9414-2de45d2c4097\n")])]

/-- A store of two directories named by identifiers: one written in lower
case, without `config.yaml`; one written in upper case, holding the record
of `e1`. -/
def storeUpperCaseName : World :=
  testWorld
    [("45764648-162a-4526-bdd0-71a438fd6ceb", .dir []),
     ("4AF1705C-C48F-4CA2-BE08-53C673DA835C", .dir [("config.yaml", .file recordE1)])]

/-- The store of the case `incorrect config file name` of `TestGetAll`. -/
def storeIncorrectConfigName : World :=
  testWorld
    [("45764648-162a-4526-bdd0-71a438fd6ceb", .dir [("config.yaml", .file recordE2)]),
     ("4af1705c-c48f-4ca2-be08-53c673da835c", .dir [("incorrect-config.yaml", .file recordE1)])]

end environment

namespace docker

open environment (Error pathJoin goBytes)

/-! ## docker.go: the job and the requests to the container engine -/

/-- Type `Image` of docker.go. -/
structure Image where
  Name : String
  deriving DecidableEq, Repr

/-- Type `Job` of docker.go; the map `EnvironmentVariables` is the list of
its pairs in the order the `range` loop of `run` visits them. -/
structure Job where
  Image : String
  Command : String
  Args : List String
  WorkDirectory : String
  Mounts : List String
  MountPath : String
  EnvironmentVariables : List (String × String)
  deriving DecidableEq, Repr

/-- Type `mount.Mount`, as far as `run` fills it; `MountType` is its field
`Type`. -/
structure Mount where
  MountType : String
  Source : String
  Target : String
  deriving DecidableEq, Repr

/-- Constant `mount.TypeBind`. -/
def TypeBind : String := "bind"

/-- Type `container.Config`, as far as `run` fills it. -/
structure ContainerConfig where
  Image : String
  Cmd : List String
  WorkingDir : String
  Env : List String
  Tty : Bool
  deriving DecidableEq, Repr

/-- Type `container.HostConfig`, as far as `run` fills it. -/
structure HostConfig where
  Mounts : List Mount
  deriving DecidableEq, Repr

/-- The loop of `run` over the environment variables: `envs` is the slice
built so far, each pair is appended as `key=value`. -/
def envsLoop : List (String × String) → List String → List String
  | [], envs => envs
  | (k, v) :: rest, envs => envsLoop rest (envs ++ [k ++ "=" ++ v])

/-- The loop of `run` over `job.Mounts`: `mounts` is the slice built so far. -/
def mountsLoop (mountPath : String) : List String → List Mount → List Mount
  | [], mounts => mounts
  | m :: rest, mounts =>
    mountsLoop mountPath rest
      (mounts ++ [{ MountType := TypeBind, Source := pathJoin [mountPath, m], Target := m }])

/-- The `container.Config` that `run` passes to `ContainerCreate`. -/
def containerConfig (job : Job) : ContainerConfig :=
  { Image := job.Image
    Cmd := [job.Command] ++ job.Args
    WorkingDir := job.WorkDirectory
    Env := envsLoop job.EnvironmentVariables []
    Tty := false }

/-- The `container.HostConfig` that `run` passes to `ContainerCreate`. -/
def hostConfig (job : Job) : HostConfig :=
  { Mounts := mountsLoop job.MountPath job.Mounts [] }

/-! ## The container engine -/

/-- What `stdcopy.StdCopy` relays from the log stream of a container until the
stream ends: the bytes for the standard output and those for the standard
error. -/
structure LogStream where
  stdout : String
  stderr : String
  deriving DecidableEq, Repr

/-- The progress stream of an image pull: the bytes the successive reads of
`io.Copy` get (one chunk per read), and how the stream ends, `none` being
`io.EOF`. -/
structure PullStream where
  chunks : List String
  readError : Option Error
  deriving DecidableEq, Repr

/-- A call made to the container engine. -/
inductive EngineCall where
  | imagePull (image : String)
  | containerCreate (config : ContainerConfig) (host : HostConfig) (name : String)
  | containerStart (containerID : String)
  | containerLogs (containerID : String)
  | containerRemove (containerID : String)
  deriving DecidableEq, Repr

/-- The container engine behind `*client.Client`, with a state of type `σ`:
the error of `client.NewEnvClient` (`none`: a client is made) and, for every
call the package makes, the values the call returns and the next state. A
pull and a log attach return a reader and an error; `*client.Client` gives
either the reader with a nil error or a nil reader with the error. -/
structure Engine (σ : Type) where
  NewEnvClient : Option Error
  ImagePull : σ → String → (Option PullStream × Option Error) × σ
  ContainerCreate : σ → ContainerConfig → HostConfig → Except Error String × σ
  ContainerStart : σ → String → Option Error × σ
  ContainerLogs : σ → String → (Option LogStream × Option Error) × σ
  ContainerRemove : σ → String → Option Error × σ

/-! ## docker.go: running a job -/

/-- What a run has done so far: the state of the engine, the calls made to
it in order, the bytes relayed to the two sinks and the warnings logged. -/
structure RunEffects (σ : Type) where
  engine : σ
  calls : List EngineCall
  stdout : String
  stderr : String
  warnings : List Error
  deriving DecidableEq, Repr

/-- How `run` ends: it returns its error, or it panics on a nil reader. -/
inductive RunResult where
  | returned (err : Option Error)
  | panicked
  deriving DecidableEq, Repr

/-- Modelled from the spec: function `warnRemovingContainer`, absent from
src/: the failure of the removal is logged as a warning. -/
def warnRemovingContainer {σ : Type} (err : Error) (eff : RunEffects σ) : RunEffects σ :=
  { eff with warnings := eff.warnings ++ [err] }

/-- Function `removeFinishedContainer`. -/
def removeFinishedContainer {σ : Type} (E : Engine σ) (eff : RunEffects σ)
    (containerID : String) : RunEffects σ :=
  match E.ContainerRemove eff.engine containerID with
  | (none, s) =>
    { eff with engine := s, calls := eff.calls ++ [.containerRemove containerID] }
  | (some err, s) =>
    warnRemovingContainer err
      { eff with engine := s, calls := eff.calls ++ [.containerRemove containerID] }

/-- Function `run`; the deferred `removeFinishedContainer` runs on every way
out once it is registered. -/
def run {σ : Type} (E : Engine σ) (s : σ) (job : Job) : RunResult × RunEffects σ :=
  match E.NewEnvClient with
  | some err => (.returned (some err), ⟨s, [], "", "", []⟩)
  | none =>
    let create := EngineCall.containerCreate (containerConfig job) (hostConfig job) ""
    match E.ContainerCreate s (containerConfig job) (hostConfig job) with
    | (.error err, s1) => (.returned (some err), ⟨s1, [create], "", "", []⟩)
    | (.ok id, s1) =>
      match E.ContainerStart s1 id with
      | (some err, s2) =>
        (.returned (some err),
          removeFinishedContainer E ⟨s2, [create, .containerStart id], "", "", []⟩ id)
      | (none, s2) =>
        match E.ContainerLogs s2 id with
        | ((_, some err), s3) =>
          (.returned (some err),
            removeFinishedContainer E
              ⟨s3, [create, .containerStart id, .containerLogs id], "", "", []⟩ id)
        | ((none, none), s3) =>
          (.panicked,
            removeFinishedContainer E
              ⟨s3, [create, .containerStart id, .containerLogs id], "", "", []⟩ id)
        | ((some out, none), s3) =>
          (.returned none,
            removeFinishedContainer E
              ⟨s3, [create, .containerStart id, .containerLogs id], out.stdout, out.stderr, []⟩
              id)

/-- Method `Job.Run`. -/
def Job.Run {σ : Type} (E : Engine σ) (s : σ) (j : Job) : RunResult × RunEffects σ :=
  run E s j

/-! ## docker.go: pulling an image -/

/-- Constant `bufio.MaxScanTokenSize`, 64 KiB. -/
def MaxScanTokenSize : Nat := 64 * 1024

/-- The `bufio.Scanner` of `Pull`, splitting lines: the bytes of the line
being read (the buffer), the tokens given to the loop so far, and the size
the buffer may not exceed. -/
structure Scanner where
  line : List Nat
  tokens : List (List Nat)
  maxTokenSize : Nat
  deriving DecidableEq, Repr

/-- Function `bufio.NewScanner`. -/
def NewScanner : Scanner :=
  { line := [], tokens := [], maxTokenSize := MaxScanTokenSize }

/-- Function `dropCR` of bufio: a trailing carriage return is dropped. -/
def dropCR (data : List Nat) : List Nat :=
  if data.getLast? = some 13 then data.dropLast else data

/-- The scanner reading the bytes written into the pipe: a newline ends the
line, which becomes a token; once the buffer holds `maxTokenSize` bytes
without a newline the scanner gives up (`ErrTooLong`) and reads no more.
The result is the scanner and the bytes it has left unread. -/
def Scanner.feed : Scanner → List Nat → Scanner × List Nat
  | sc, [] => (sc, [])
  | sc, b :: rest =>
    if sc.maxTokenSize ≤ sc.line.length then (sc, b :: rest)
    else if b = 10 then
      Scanner.feed { sc with line := [], tokens := sc.tokens ++ [dropCR sc.line] } rest
    else Scanner.feed { sc with line := sc.line ++ [b] } rest

/-- The tokens of the scanner once the pipe is closed: a last line without
newline is a token too, unless it is empty or has filled the buffer. -/
def Scanner.finish (sc : Scanner) : List (List Nat) :=
  if sc.maxTokenSize ≤ sc.line.length ∨ sc.line = [] then sc.tokens
  else sc.tokens ++ [dropCR sc.line]

/-- Where the three goroutines of `Pull` stand: the scanner of the first,
the `strings.Builder` of the second, and whether the third is stuck in a
write to the pipe of the scanner, which nobody reads any more. -/
structure Copying where
  scanner : Scanner
  buf : String
  stuck : Bool
  deriving DecidableEq, Repr

/-- The `io.Copy` of the third goroutine over the reads of the progress
stream: every read that gives bytes is written by the `io.MultiWriter` first
to the pipe of the builder, then to the pipe of the scanner; a write to a
pipe ends when the reader of the pipe has taken all its bytes. -/
def pullCopy : List String → Copying → Copying
  | [], st => st
  | chunk :: rest, st =>
    if chunk = "" then pullCopy rest st
    else
      match st.scanner.feed (goBytes chunk) with
      | (sc, []) => pullCopy rest { scanner := sc, buf := st.buf ++ chunk, stuck := false }
      | (sc, _ :: _) => { scanner := sc, buf := st.buf ++ chunk, stuck := true }

/-- An entry of the log of the package. -/
inductive LogEntry where
  | debug (message : String)
  | debugJson (record : List Nat) (message : String)
  deriving DecidableEq, Repr

/-- How `Pull` ends: it returns its two values; or the process dies of a nil
reader; or `Pull` waits for ever on the channel `done`. -/
inductive PullResult where
  | returned (result : String) (err : Option Error)
  | crashed
  | blocked
  deriving DecidableEq, Repr

/-- What a pull has done so far: the state of the engine, the calls made to
it and the entries logged. -/
structure PullEffects (σ : Type) where
  engine : σ
  calls : List EngineCall
  logged : List LogEntry
  deriving DecidableEq, Repr

/-- Method `(*Image).Pull`. The functions `debug` and `debugJson` are absent
from src/ and modelled from the spec: they add an entry to the log. A nil
reader is dereferenced by `io.Copy` in the third goroutine. Otherwise the
copy runs to the end of the stream (`io.EOF` or a read error, both ignored),
the two pipes are closed, both readers signal `done` and `Pull` returns the
text of the builder with the error of `ImagePull`, which is nil whenever
`*client.Client` gave the reader; unless the copy gets stuck, in which case
the second signal never comes. -/
def Image.Pull {σ : Type} (E : Engine σ) (s : σ) (i : Image) : PullResult × PullEffects σ :=
  match E.NewEnvClient with
  | some err => (.returned "" (some err), ⟨s, [], [.debug "will try to pull"]⟩)
  | none =>
    match E.ImagePull s i.Name with
    | ((none, _), s1) => (.crashed, ⟨s1, [.imagePull i.Name], [.debug "will try to pull"]⟩)
    | ((some reader, err), s1) =>
      let st := pullCopy reader.chunks { scanner := NewScanner, buf := "", stuck := false }
      if st.stuck then
        (.blocked, ⟨s1, [.imagePull i.Name],
          .debug "will try to pull" :: st.scanner.tokens.map (LogEntry.debugJson · "pulling")⟩)
      else
        (.returned st.buf err, ⟨s1, [.imagePull i.Name],
          .debug "will try to pull" :: st.scanner.finish.map (LogEntry.debugJson · "pulling")⟩)

/-- The whole text of the chunks of a stream. -/
def streamText : List String → String
  | [] => ""
  | chunk :: rest => chunk ++ streamText rest

/-- No line of the bytes reaches `limit` bytes, `n` being the length of the
line the bytes continue. -/
def linesFit (limit : Nat) : Nat → List Nat → Bool
  | n, [] => decide (n < limit)
  | n, b :: rest =>
    decide (n < limit) && (if b = 10 then linesFit limit 0 rest else linesFit limit (n + 1) rest)

/-! ## Engines and jobs to try the package on -/

/-- An engine without state that creates the container `c1`, starts it,
gives the log `hi`, and fails to remove it; its pull gives no reader. -/
def engineRemoveFails : Engine Unit :=
  { NewEnvClient := none
    ImagePull := fun _ _ => ((none, some (.text "pull failed")), ())
    ContainerCreate := fun _ _ _ => (.ok "c1", ())
    ContainerStart := fun _ _ => (none, ())
    ContainerLogs := fun _ _ => ((some ⟨"hi\n", ""⟩, none), ())
    ContainerRemove := fun _ _ => (some (.text "removal failed"), ()) }

/-- A job `echo hi` with two mounts under the mount path `/home/u/e1`. -/
def jobEcho : Job :=
  { Image := "X", Command := "echo", Args := ["hi"], WorkDirectory := "/work",
    Mounts := ["/data", "shared/../cache"], MountPath := "/home/u/e1",
    EnvironmentVariables := [("A", "1"), ("B", "2")] }

/-- Two chunks of a progress text, the second one cut short. -/
def progressChunks : List String :=
  ["\x7b\"status\":\"Pulling\"\x7d\n", "\x7b\"status\":\"Dow"]

/-- An engine whose pull fails, as `*client.Client` reports it: no reader,
and the error. -/
def enginePullFails : Engine Unit :=
  { engineRemoveFails with
    ImagePull := fun _ _ => ((none, some (.text "pull failed")), ()) }

/-- An engine whose pull starts (a reader and a nil error), gives the two
chunks of a progress text and then breaks: the next read of the stream
fails. -/
def enginePullBreaks : Engine Unit :=
  { engineRemoveFails with
    ImagePull := fun _ _ => ((some ⟨progressChunks, some (.text "reset")⟩, none), ()) }

/-- An engine whose pull starts and gives, in reads of 32 KiB, a line of
65537 bytes. -/
def enginePullLongLine : Engine Unit :=
  { engineRemoveFails with
    ImagePull := fun _ _ =>
      ((some ⟨[String.mk (List.replicate 32768 'a'), String.mk (List.replicate 32768 'a'), "a"],
          none⟩, none), ()) }

/-- An engine whose state is the list of its containers: a create adds the
container `c1`, the start and the log attach succeed, the log is `hi`, and
a removal takes the container off the list. -/
def engineListing : Engine (List String) :=
  { NewEnvClient := none
    ImagePull := fun s _ => ((none, some (.text "pull failed")), s)
    ContainerCreate := fun s _ _ => (.ok "c1", "c1" :: s)
    ContainerStart := fun s _ => (none, s)
    ContainerLogs := fun s _ => ((some ⟨"hi\n", ""⟩, none), s)
    ContainerRemove := fun s id => (none, s.erase id) }

end docker

namespace environment

theorem utf8Bytes_hexDigit (n : Fin 16) : utf8Bytes (hexDigit n) = [(hexDigit n).toNat] := by
  revert n; decide

theorem xvalue_hexDigit (n : Fin 16) : xvalue (hexDigit n).toNat = some n := by
  revert n; decide

theorem xtob_hexByte (b : Fin 256) :
    xtob (hexDigit ⟨b.val / 16, by omega⟩).toNat (hexDigit ⟨b.val % 16, by omega⟩).toNat = some b := by
  simp only [xtob, xvalue_hexDigit]
  congr 1
  apply Fin.ext
  simp only
  omega

theorem utf8Bytes_dash : utf8Bytes '-' = [45] := by decide

theorem goBytes_encodeHex (u : UUID) :
    goBytes (String.mk (encodeHex u)) = (encodeHex u).map Char.toNat := by
  simp only [goBytes, encodeHex, hexByte, String.toList, List.flatMap_append, List.flatMap_cons,
    List.flatMap_nil, utf8Bytes_hexDigit, utf8Bytes_dash, List.map_append, List.map_cons,
    List.map_nil, List.append_nil]
  rfl

theorem uuidParse_String (u : UUID) : uuidParse u.String = .ok u := by
  cases u
  simp only [uuidParse, UUID.String, goBytes_encodeHex]
  simp [encodeHex, hexByte, parseDashed, byteAt, parseAt, xtob_hexByte]



/-! ## Saving -/

/-- C1 (the code at the failing input): on an environment whose identifier is
the nil UUID, with the directory `00000000-0000-0000-0000-000000000000`
present as `TestEnvironment_Save` makes it, `Save` returns a nil error and
writes the record: there is no check of the identifier. -/
theorem Save_nil_uuid_writes_record :
    Environment.Save yamlV2 ⟨"e1", UUID.Nil⟩
        (testWorld [("00000000-0000-0000-0000-000000000000", .dir [])]) =
      (none, testWorld [("00000000-0000-0000-0000-000000000000",
        .dir [("config.yaml",
          .file "name: e1\nuuid: 00000000-0000-0000-0000-000000000000\n")])]) := by
  decide

/-- C7 (the code at the failing input): for the environment `e1` with the
identifier `10d52c05-029e-4794-a790-79d6c2af40b6`, `Save` writes two lines,
`name` and `uuid`; the line `installed: []` that `TestEnvironment_Save` expects
is not written. -/
theorem Save_writes_two_lines :
    Environment.Save yamlV2 ⟨"e1", uuidSave⟩
        (testWorld [("10d52c05-029e-4794-a790-79d6c2af40b6", .dir [])]) =
      (none, testWorld [("10d52c05-029e-4794-a790-79d6c2af40b6",
        .dir [("config.yaml",
          .file "name: e1\nuuid: 10d52c05-029e-4794-a790-79d6c2af40b6\n")])]) ∧
    "name: e1\nuuid: 10d52c05-029e-4794-a790-79d6c2af40b6\n" ≠
      "name: e1\nuuid: 10d52c05-029e-4794-a790-79d6c2af40b6\ninstalled: []\n" := by
  decide

/-! ## Reading one record -/

/-- C2 (the code at the failing input): with the record `incorrect file` under
`66d4cd70-4375-4737-b6ce-7e13f3cc93f9`, the decoder fails and `Get` prints
`incorrect file?` and returns a nil environment with a nil error. -/
theorem Get_unparsable_returns_nil_nil :
    yamlV2.Decode "incorrect file" = .error (.yamlUnmarshal
      ["line 1: cannot unmarshal !!str `incorre...` into environment.Environment"]) ∧
    Get yamlV2 uuidIncorrect (testWorld [("66d4cd70-4375-4737-b6ce-7e13f3cc93f9",
        .dir [("config.yaml", .file "incorrect file")])]) =
      ((none, none), (testWorld [("66d4cd70-4375-4737-b6ce-7e13f3cc93f9",
        .dir [("config.yaml", .file "incorrect file")])]).println "incorrect file?") := by
  decide

/-- C8 (counterexample): when the store holds a regular file under the name
`816789aa-7839-4f2b-ac74-b66344e4fbe8`, nothing exists at the path of the
record (the walk ends with `ENOTDIR`), yet `Get` returns a nil environment
with a nil error. -/
theorem Get_not_a_directory_returns_nil_nil :
    (testWorld [("816789aa-7839-4f2b-ac74-b66344e4fbe8", .file "")]).walk
        uuidMissing.String DefaultEnvironmentConfigFileName = .error .ENOTDIR ∧
    (Get yamlV2 uuidMissing
        (testWorld [("816789aa-7839-4f2b-ac74-b66344e4fbe8", .file "")])).1 = (none, none) := by
  decide

/-! ## Listing -/

/-- C3 (the code at the failing input): on the store of the case `incorrect
config file content` of `TestGetAll`, `GetAll` returns two entries, the second
one nil, where the test expects the one environment `e2`. -/
theorem GetAll_unparsable_gives_nil_entry :
    GetAll yamlV2 (testWorld
        [("45764648-162a-4526-bdd0-71a438fd6ceb", .dir [("config.yaml", .file recordE2)]),
         ("4af1705c-c48f-4ca2-be08-53c673da835c",
            .dir [("config.yaml", .file "incorrect content")])]) =
      .returned ([some ⟨"e2", uuidE2⟩, none], none) ((testWorld
        [("45764648-162a-4526-bdd0-71a438fd6ceb", .dir [("config.yaml", .file recordE2)]),
         ("4af1705c-c48f-4ca2-be08-53c673da835c",
            .dir [("config.yaml", .file "incorrect content")])]).println "incorrect file?") := by
  decide

/-! ## Writing, then reading -/

theorem lookup_writeChild (file data : String) (cs : List (String × Child)) :
    lookupName file (writeChild file data cs) = some (.file data) := by
  induction cs with
  | nil => simp [writeChild, lookupName]
  | cons p cs ih =>
    obtain ⟨n, c⟩ := p
    by_cases h : n = file
    · simp [writeChild, h, lookupName]
    · simp [writeChild, h, lookupName, ih]

theorem lookup_replaceEntry (dir : String) (e x : Entry) (es : List (String × Entry))
    (h : lookupName dir es = some x) : lookupName dir (replaceEntry dir e es) = some e := by
  induction es with
  | nil => simp [lookupName] at h
  | cons p es ih =>
    obtain ⟨n, y⟩ := p
    by_cases hn : n = dir
    · simp [replaceEntry, hn, lookupName]
    · simp only [lookupName, hn, if_false] at h
      simp [replaceEntry, hn, lookupName, ih h]

/-- A write that succeeds leaves a regular file with the data at the path. -/
theorem walk_ioutilWriteFile (w w1 : World) (path dir file data : String)
    (h : ioutilWriteFile w path dir file data = (none, w1)) :
    w1.walk dir file = .ok (.file data) ∧
      w1.UsedEnvironmentDirectory = w.UsedEnvironmentDirectory ∧ w1.stdout = w.stdout := by
  unfold ioutilWriteFile at h
  split at h
  · simp at h
  · rename_i es hes
    split at h
    · simp at h
    · simp at h
    · rename_i cs hcs
      split at h
      · simp at h
      · simp only [Prod.mk.injEq, true_and] at h
        subst h
        simp [World.walk, lookup_replaceEntry _ _ _ _ hcs, lookup_writeChild]

/-- What `Get` returns once the path leads to a regular file. -/
theorem Get_of_file (Y : YamlCodec) (u : UUID) (w : World) (content : String)
    (h : w.walk u.String DefaultEnvironmentConfigFileName = .ok (.file content)) :
    Get Y u w =
      match Y.Decode content with
      | .error _ => ((none, none), w.println "incorrect file?")
      | .ok e => ((e, none), w) := by
  simp only [Get, osStat, h, osIsNotExist, loadEnvironmentFromConfigFile, osOpen]
  cases Y.Decode content <;> simp

/-- A save that succeeds has written the bytes of the encoder at the path of
the record. -/
theorem Save_ok (Y : YamlCodec) (e : Environment) (w w1 : World)
    (hsave : e.Save Y w = (none, w1)) :
    ∃ data, Y.Marshal e = .ok data ∧
      w1.walk e.Uuid.String DefaultEnvironmentConfigFileName = .ok (.file data) := by
  unfold Environment.Save at hsave
  split at hsave
  · simp at hsave
  · rename_i data hdata
    split at hsave
    · simp at hsave
    · rename_i w2 hw
      simp only [Prod.mk.injEq, true_and] at hsave
      subst hsave
      exact ⟨data, hdata, (walk_ioutilWriteFile _ _ _ _ _ _ hw).1⟩

theorem Get_after_Save (Y : YamlCodec) (e : Environment) (w w1 : World)
    (hsave : e.Save Y w = (none, w1))
    (hcodec : ∀ data, Y.Marshal e = .ok data → Y.Decode data = .ok (some e)) :
    Get Y e.Uuid w1 = ((some e, none), w1) := by
  obtain ⟨data, hdata, hwalk⟩ := Save_ok Y e w w1 hsave
  rw [Get_of_file Y e.Uuid w1 data hwalk, hcodec data hdata]

/-- When `e.Save()` succeeds, and the decoder gives `e` back on the
bytes the encoder wrote for `e`, then `Get(e.Uuid)` on the store `Save` left
returns `e` itself (the same name and identifier) with a nil error, and
changes nothing. -/
theorem Save_then_Get (Y : YamlCodec) (e : Environment) (w w1 : World)
    (hsave : e.Save Y w = (none, w1))
    (hcodec : ∀ data, Y.Marshal e = .ok data → Y.Decode data = .ok (some e)) :
    Get Y e.Uuid w1 = ((some e, none), w1) :=
  Get_after_Save Y e w w1 hsave hcodec

/-- The environment `e1` of `TestEnvironment_Save`, saved into its directory
and read back through the model of yaml.v2. -/
theorem Save_then_Get_witness :
    Get yamlV2 uuidSave
        (testWorld [("10d52c05-029e-4794-a790-79d6c2af40b6",
          .dir [("config.yaml",
            .file "name: e1\nuuid: 10d52c05-029e-4794-a790-79d6c2af40b6\n")])]) =
      ((some ⟨"e1", uuidSave⟩, none),
        testWorld [("10d52c05-029e-4794-a790-79d6c2af40b6",
          .dir [("config.yaml",
            .file "name: e1\nuuid: 10d52c05-029e-4794-a790-79d6c2af40b6\n")])]) :=
  Save_then_Get yamlV2 ⟨"e1", uuidSave⟩
    (testWorld [("10d52c05-029e-4794-a790-79d6c2af40b6", .dir [])]) _
    (by decide)
    (by intro data h; cases h; decide)

/-- C5 (the code at the failing input): `Get` reads the record of the case
`correct` of `TestGet`, with its line `installed: []`, as the environment of
name `e1` and identifier `fccf6810-32c4-4500-9414-2de45d2c4097`, a value of the
two fields `Name` and `Uuid`; `Save` of that environment succeeds and leaves a
record of the two lines `name` and `uuid`, the sequence `installed` being
absent from it; `Get` on the store `Save` left returns the two fields again. -/
theorem Save_then_Get_has_no_installed :
    Get yamlV2 uuidCorrect storeCorrect =
        ((some ⟨"e1", uuidCorrect⟩, none), storeCorrect) ∧
      Environment.Save yamlV2 ⟨"e1", uuidCorrect⟩ storeCorrect =
        (none, storeCorrectSaved) ∧
      storeCorrectSaved.walk "fccf6810-32c4-4500-9414-2de45d2c4097"
          DefaultEnvironmentConfigFileName =
        .ok (.file "name: e1\nuuid: fccf6810-32c4-4500-9414-2de45d2c4097\n") ∧
      yamlLines "name: e1\nuuid: fccf6810-32c4-4500-9414-2de45d2c4097\n".toList [] =
        ["name: e1".toList, "uuid: fccf6810-32c4-4500-9414-2de45d2c4097".toList] ∧
      Get yamlV2 uuidCorrect storeCorrectSaved =
        ((some ⟨"e1", uuidCorrect⟩, none), storeCorrectSaved) := by
  decide

/-! ## A record that is not there -/

/-- The walk to `<dir>/<file>` ends with `ENOENT` exactly when the store
directory is missing, or holds nothing under `dir`, or holds under `dir` a
directory without the child `file`. -/
theorem walk_ENOENT_iff (w : World) (dir file : String) :
    w.walk dir file = .error .ENOENT ↔
      w.entries = none ∨
      (∃ es, w.entries = some es ∧ lookupName dir es = none) ∨
      (∃ es cs, w.entries = some es ∧ lookupName dir es = some (.dir cs) ∧ lookupName file cs = none) := by
  unfold World.walk
  cases w.entries with
  | none => simp
  | some es =>
    simp only [Option.some.injEq, exists_eq_left', false_or]
    cases hd : lookupName dir es with
    | none => simp [hd]
    | some x =>
      cases x with
      | file c => simp [hd]
      | dir cs =>
        cases hf : lookupName file cs with
        | none => simp [hd, hf]
        | some c => simp [hd, hf]

/-- `Get` leaves the store and the variable `UsedEnvironmentDirectory` as they
are; it may print. -/
theorem Get_frame (Y : YamlCodec) (u : UUID) (w : World) :
    (Get Y u w).2.entries = w.entries ∧
      (Get Y u w).2.UsedEnvironmentDirectory = w.UsedEnvironmentDirectory := by
  unfold Get
  dsimp only
  split
  · exact ⟨rfl, rfl⟩
  · split <;> exact ⟨rfl, rfl⟩

/-- C8 (amended): when the walk to the record of `uuid` ends with `ENOENT`
(the store directory is missing, or holds nothing under the name of the
identifier, or holds a directory without `config.yaml`), `Get` returns a nil
environment together with the error of `os.Stat`, a path error `ENOENT` on the
path of the record, and leaves the store as it is. -/
theorem Get_missing_record (Y : YamlCodec) (uuid : UUID) (w : World)
    (h : w.walk uuid.String DefaultEnvironmentConfigFileName = .error .ENOENT) :
    (Get Y uuid w).1 = (none, some (.pathError "stat"
        (pathJoin [w.UsedEnvironmentDirectory, uuid.String, DefaultEnvironmentConfigFileName])
        .ENOENT)) ∧
      (Get Y uuid w).2.entries = w.entries := by
  refine ⟨?_, (Get_frame Y uuid w).1⟩
  simp [Get, osStat, h, osIsNotExist]

/-- C8 (witness): the case `missing file` of `TestGet`, on an empty store. -/
theorem Get_missing_record_witness :
    (Get yamlV2 uuidMissing (testWorld [])).1 = (none, some (.pathError "stat"
        (pathJoin [testRoot, uuidMissing.String, DefaultEnvironmentConfigFileName]) .ENOENT)) ∧
      (Get yamlV2 uuidMissing (testWorld [])).2.entries = some [] :=
  Get_missing_record yamlV2 uuidMissing (testWorld []) (by decide)

/-! ## A directory whose name is not an identifier -/

theorem GetAll_loop_panics (Y : YamlCodec) (items : List FileInfo) :
    ∀ (environments : List (Option Environment)) (w : World),
      (∃ i ∈ items, i.IsDir = true ∧ ∃ err, uuidParse i.Name = .error err) →
      ∃ n err w1, GetAll.loop Y items environments w = .panicked (.uuidMustParse n err) w1 ∧
        uuidParse n = .error err ∧ (n, true) ∈ items.map (fun i => (i.Name, i.IsDir)) ∧
        w1.entries = w.entries := by
  induction items with
  | nil => intro _ _ h; simp at h
  | cons i items ih =>
    intro environments w h
    unfold GetAll.loop
    by_cases hd : i.IsDir = true
    · simp only [hd, if_true]
      cases hp : uuidParse i.Name with
      | error err =>
        exact ⟨i.Name, err, w, rfl, hp, by simp [hd], rfl⟩
      | ok u =>
        have hrest : ∃ j ∈ items, j.IsDir = true ∧ ∃ err, uuidParse j.Name = .error err := by
          obtain ⟨j, hj, hjd, err, hje⟩ := h
          rcases List.mem_cons.1 hj with rfl | hj2
          · rw [hp] at hje; cases hje
          · exact ⟨j, hj2, hjd, err, hje⟩
        have hf := (Get_frame Y u w).1
        rcases hg : Get Y u w with ⟨⟨e, oerr⟩, w1⟩
        rw [hg] at hf
        simp only [hg]
        cases oerr with
        | none =>
          obtain ⟨n, err, w2, h1, h2, h3, h4⟩ := ih (environments ++ [e]) w1 hrest
          exact ⟨n, err, w2, h1, h2, List.mem_cons_of_mem _ h3, h4.trans hf⟩
        | some _ =>
          obtain ⟨n, err, w2, h1, h2, h3, h4⟩ := ih environments w1 hrest
          exact ⟨n, err, w2, h1, h2, List.mem_cons_of_mem _ h3, h4.trans hf⟩
    · have hrest : ∃ j ∈ items, j.IsDir = true ∧ ∃ err, uuidParse j.Name = .error err := by
        obtain ⟨j, hj, hjd, err, hje⟩ := h
        rcases List.mem_cons.1 hj with rfl | hj2
        · exact absurd hjd hd
        · exact ⟨j, hj2, hjd, err, hje⟩
      simp only [hd]
      obtain ⟨n, err, w2, h1, h2, h3, h4⟩ := ih environments w hrest
      exact ⟨n, err, w2, h1, h2, List.mem_cons_of_mem _ h3, h4⟩

/-- C4: when the store holds a directory whose name `uuid.Parse` rejects,
whatever that directory contains and whatever else the store holds, `GetAll`
does not return: it panics with the message of `uuid.MustParse` for a
directory `n` of the store and the error `uuid.Parse` gives on `n`; the store
is left as it was. -/
theorem GetAll_panics_on_bad_directory_name (Y : YamlCodec) (w : World)
    (es : List (String × Entry)) (name : String) (children : List (String × Child))
    (hes : w.entries = some es) (hmem : (name, Entry.dir children) ∈ es)
    (hbad : ∃ err, uuidParse name = .error err) :
    ∃ n err w1, GetAll Y w = .panicked (.uuidMustParse n err) w1 ∧
      uuidParse n = .error err ∧ (∃ cs, (n, Entry.dir cs) ∈ es) ∧ w1.entries = w.entries := by
  have hitems : ioutilReadDir w = .ok ((es.map fun p => p.2.info p.1).insertionSort
      fun a b => goStringLe a.Name b.Name) := by
    simp [ioutilReadDir, hes]
  have hex : ∃ i ∈ (es.map fun p => p.2.info p.1).insertionSort
      (fun a b => goStringLe a.Name b.Name),
      i.IsDir = true ∧ ∃ err, uuidParse i.Name = .error err := by
    refine ⟨⟨name, true⟩, ?_, rfl, ?_⟩
    · rw [(List.perm_insertionSort _ _).mem_iff]
      exact List.mem_map.2 ⟨(name, Entry.dir children), hmem, rfl⟩
    · exact hbad
  obtain ⟨n, err, w1, h1, h2, h3, h4⟩ := GetAll_loop_panics Y _ [] w hex
  refine ⟨n, err, w1, ?_, h2, ?_, h4⟩
  · simp [GetAll, hitems, h1]
  · obtain ⟨i, hi, hin⟩ := List.mem_map.1 h3
    rw [(List.perm_insertionSort _ _).mem_iff] at hi
    obtain ⟨p, hp, rfl⟩ := List.mem_map.1 hi
    obtain ⟨pn, pe⟩ := p
    cases pe with
    | file c => simp [Entry.info] at hin
    | dir cs =>
      simp only [Entry.info, Prod.mk.injEq, and_true] at hin
      subst hin
      exact ⟨cs, hp⟩

/-- C4 (witness): the case `subdirectory name not uuid` of `TestGetAll`. -/
theorem GetAll_panics_on_bad_directory_name_witness :
    ∃ n err w1, GetAll yamlV2 (testWorld
        [("45764648-162a-4526-bdd0-71a438fd6ceb", .dir [("config.yaml", .file recordE2)]),
         ("incorrect-directory-name", .dir [("config.yaml", .file recordE1)])]) =
        .panicked (.uuidMustParse n err) w1 ∧
      uuidParse n = .error err ∧
      (∃ cs, (n, Entry.dir cs) ∈
        [("45764648-162a-4526-bdd0-71a438fd6ceb", Entry.dir [("config.yaml", .file recordE2)]),
         ("incorrect-directory-name", .dir [("config.yaml", .file recordE1)])]) ∧
      w1.entries = (testWorld
        [("45764648-162a-4526-bdd0-71a438fd6ceb", .dir [("config.yaml", .file recordE2)]),
         ("incorrect-directory-name", .dir [("config.yaml", .file recordE1)])]).entries :=
  GetAll_panics_on_bad_directory_name yamlV2 _ _ "incorrect-directory-name"
    [("config.yaml", .file recordE1)] rfl (by simp) ⟨.invalidLength 24, by decide⟩

/-! ## Looking a component up -/

theorem scanInstalled_some {Command : Type} (name : String)
    (l : List (InstalledComponentVersion Command)) (c : InstalledComponentVersion Command)
    (h : scanInstalled name l = some c) :
    ∃ before after, l = before ++ c :: after ∧ c.Name = name ∧ ∀ x ∈ before, x.Name ≠ name := by
  induction l with
  | nil => simp [scanInstalled] at h
  | cons d rest ih =>
    unfold scanInstalled at h
    by_cases hd : d.Name = name
    · simp only [hd, if_true, Option.some.injEq] at h
      subst h
      exact ⟨[], rest, rfl, hd, by simp⟩
    · simp only [hd, if_false] at h
      obtain ⟨before, after, h1, h2, h3⟩ := ih h
      refine ⟨d :: before, after, by simp [h1], h2, ?_⟩
      intro x hx
      rcases List.mem_cons.1 hx with rfl | hx2
      · exact hd
      · exact h3 x hx2

theorem scanInstalled_none {Command : Type} (name : String)
    (l : List (InstalledComponentVersion Command)) :
    scanInstalled name l = none ↔ ∀ x ∈ l, x.Name ≠ name := by
  induction l with
  | nil => simp [scanInstalled]
  | cons d rest ih =>
    unfold scanInstalled
    by_cases hd : d.Name = name
    · simp [hd]
    · simp [hd, ih]

/-- C10: `GetComponentByName` returns either an entry with a nil error or no
entry with the error `no such component installed`. An entry it returns is
the first entry of the installed list, in list order, whose name equals the
requested name; the error is returned if and only if no entry of the list
has that name, the empty list included. -/
theorem GetComponentByName_first_match {Command : Type} (e : InstalledEnvironment Command)
    (name : String) :
    ((∃ c before after, e.GetComponentByName name = (some c, none) ∧
          e.Installed = before ++ c :: after ∧ c.Name = name ∧
          ∀ x ∈ before, x.Name ≠ name) ∨
      e.GetComponentByName name = (none, some (.text "no such component installed"))) ∧
    (e.GetComponentByName name = (none, some (.text "no such component installed")) ↔
      ∀ x ∈ e.Installed, x.Name ≠ name) ∧
    ((⟨e.Name, e.Uuid, []⟩ : InstalledEnvironment Command).GetComponentByName name =
      (none, some (.text "no such component installed"))) := by
  refine ⟨?_, ?_, ?_⟩
  · cases h : scanInstalled name e.Installed with
    | none => right; simp [InstalledEnvironment.GetComponentByName, h]
    | some c =>
      left
      obtain ⟨before, after, h1, h2, h3⟩ := scanInstalled_some name _ c h
      exact ⟨c, before, after, by simp [InstalledEnvironment.GetComponentByName, h], h1, h2, h3⟩
  · rw [← scanInstalled_none]
    cases h : scanInstalled name e.Installed with
    | none => simp [InstalledEnvironment.GetComponentByName, h]
    | some c => simp [InstalledEnvironment.GetComponentByName, h]
  · simp [InstalledEnvironment.GetComponentByName, scanInstalled]

/-! ## Listing with a directory that has no record -/

theorem GetAll_loop_records (Y : YamlCodec) (w : World) (items : List FileInfo) :
    ∀ (environments : List (Option Environment)),
      (∀ i ∈ items, i.IsDir = true → ∃ u r, i.Name = UUID.String u ∧ holdsRecord Y w i r) →
      ∃ recs, List.Forall₂ (holdsRecord Y w) (items.filter fun i => i.IsDir) recs ∧
        ∀ rest, GetAll.loop Y (items ++ rest) environments w =
          GetAll.loop Y rest (environments ++ recs) w := by
  induction items with
  | nil => intro environments _; exact ⟨[], by simp, by simp⟩
  | cons i items ih =>
    intro environments h
    have hrest : ∀ j ∈ items, j.IsDir = true → ∃ u r, j.Name = UUID.String u ∧ holdsRecord Y w j r :=
      fun j hj => h j (List.mem_cons_of_mem _ hj)
    by_cases hd : i.IsDir = true
    · obtain ⟨u, r, hname, content, e, hwalk, hdec, hr⟩ := h i (List.mem_cons_self _ _) hd
      obtain ⟨recs, hrel, hloop⟩ := ih (environments ++ [some e]) hrest
      refine ⟨some e :: recs, ?_, ?_⟩
      · simp only [List.filter_cons, hd, if_true]
        exact List.Forall₂.cons ⟨content, e, hwalk, hdec, rfl⟩ hrel
      · intro rest
        rw [hname] at hwalk
        have hget := Get_of_file Y u w content hwalk
        rw [hdec] at hget
        simp only [List.cons_append]
        rw [GetAll.loop]
        simp only [hd, if_true, hname, uuidParse_String, hget]
        rw [hloop rest]
        simp
    · obtain ⟨recs, hrel, hloop⟩ := ih environments hrest
      refine ⟨recs, ?_, ?_⟩
      · simpa [List.filter_cons, hd] using hrel
      · intro rest
        simp only [List.cons_append]
        rw [GetAll.loop]
        simp only [hd]
        exact hloop rest

theorem holdsRecord_println (Y : YamlCodec) (w : World) (line : String) (i : FileInfo)
    (r : Option Environment) : holdsRecord Y (w.println line) i r ↔ holdsRecord Y w i r :=
  Iff.rfl

/-- C9 (counterexample): a store of two directories whose names `uuid.Parse`
accepts, the first without `config.yaml`, the second, named in upper case,
holding a record that decodes to `e1`: `GetAll` returns no entry at all,
where one is claimed. `Get` looks for the record of the second directory
under the lower-case text of the identifier, where the store holds nothing. -/
theorem GetAll_upper_case_name_is_skipped :
    uuidParse "45764648-162a-4526-bdd0-71a438fd6ceb" = .ok uuidE2 ∧
      uuidParse "4AF1705C-C48F-4CA2-BE08-53C673DA835C" = .ok uuidE1 ∧
      storeUpperCaseName.walk "45764648-162a-4526-bdd0-71a438fd6ceb"
        DefaultEnvironmentConfigFileName = .error .ENOENT ∧
      storeUpperCaseName.walk "4AF1705C-C48F-4CA2-BE08-53C673DA835C"
        DefaultEnvironmentConfigFileName = .ok (.file recordE1) ∧
      yamlV2.Decode recordE1 = .ok (some ⟨"e1", uuidE1⟩) ∧
      ioutilReadDir storeUpperCaseName =
        .ok [⟨"45764648-162a-4526-bdd0-71a438fd6ceb", true⟩,
          ⟨"4AF1705C-C48F-4CA2-BE08-53C673DA835C", true⟩] ∧
      GetAll yamlV2 storeUpperCaseName = .returned ([], none)
        ((storeUpperCaseName.println
          ("file " ++ pathJoin [testRoot, "45764648-162a-4526-bdd0-71a438fd6ceb",
            DefaultEnvironmentConfigFileName] ++ " does not exist!")).println
          ("file " ++ pathJoin [testRoot, "4af1705c-c48f-4ca2-be08-53c673da835c",
            DefaultEnvironmentConfigFileName] ++ " does not exist!")) := by
  refine ⟨by decide, by decide, by decide, by decide, by decide, by decide, ?_⟩
  set_option maxRecDepth 20000 in decide

/-- C9 (amended): let the listing of the store be `before`, then the directory
`broken`, then `after`; let `broken` be named by the text `String()` gives of
an identifier (lower case, with hyphens) and have no `config.yaml`, and let
every other directory of the listing be named by such a text and hold a
record that decodes to an environment. Then `GetAll`
returns a nil error and, in the order of the listing, the environments of the
other directories (one entry less than there are directories), none of them
nil; nothing is written, one line is printed for `broken`. -/
theorem GetAll_skips_missing_config (Y : YamlCodec) (w : World) (before after : List FileInfo)
    (broken : FileInfo)
    (hitems : ioutilReadDir w = .ok (before ++ broken :: after))
    (hdir : broken.IsDir = true) (hname : ∃ u, broken.Name = UUID.String u)
    (hmissing : w.walk broken.Name DefaultEnvironmentConfigFileName = .error .ENOENT)
    (hrecords : ∀ i ∈ before ++ after, i.IsDir = true →
      ∃ u r, i.Name = UUID.String u ∧ holdsRecord Y w i r) :
    ∃ environments, GetAll Y w = .returned (environments, none)
        (w.println ("file " ++ pathJoin [w.UsedEnvironmentDirectory, broken.Name,
          DefaultEnvironmentConfigFileName] ++ " does not exist!")) ∧
      List.Forall₂ (holdsRecord Y w) ((before ++ after).filter fun i => i.IsDir) environments ∧
      environments.length + 1 = ((before ++ broken :: after).filter fun i => i.IsDir).length := by
  obtain ⟨u, hu⟩ := hname
  obtain ⟨recs1, hrel1, hloop1⟩ := GetAll_loop_records Y w before []
    (fun i hi => hrecords i (List.mem_append_left _ hi))
  obtain ⟨recs2, hrel2, hloop2⟩ := GetAll_loop_records Y
    (w.println ("file " ++ pathJoin [w.UsedEnvironmentDirectory, u.String,
      DefaultEnvironmentConfigFileName] ++ " does not exist!")) after ([] ++ recs1)
    (fun i hi => hrecords i (List.mem_append_right _ hi))
  have hrel : List.Forall₂ (holdsRecord Y w) ((before ++ after).filter fun i => i.IsDir)
      (recs1 ++ recs2) := by
    rw [List.filter_append]
    exact List.rel_append hrel1 hrel2
  refine ⟨recs1 ++ recs2, ?_, hrel, ?_⟩
  · rw [hu] at hmissing
    have hget : Get Y u w = ((none, some (.pathError "stat"
        (pathJoin [w.UsedEnvironmentDirectory, u.String, DefaultEnvironmentConfigFileName])
        .ENOENT)), w.println ("file " ++ pathJoin [w.UsedEnvironmentDirectory, u.String,
          DefaultEnvironmentConfigFileName] ++ " does not exist!")) := by
      simp [Get, osStat, hmissing, osIsNotExist]
    have h2 := hloop2 []
    simp only [List.append_nil, List.nil_append] at h2
    simp only [GetAll, hitems, hloop1]
    rw [GetAll.loop]
    simp only [hdir, if_true, hu, uuidParse_String, hget, List.nil_append]
    rw [h2]
    simp [GetAll.loop]
  · have h1 := hrel.length_eq
    rw [← h1]
    simp [List.filter_append, List.filter_cons, hdir]
    omega

/-- C9 (witness): the case `incorrect config file name` of `TestGetAll`. -/
theorem GetAll_skips_missing_config_witness :
    ∃ environments, GetAll yamlV2 storeIncorrectConfigName =
        .returned (environments, none) (storeIncorrectConfigName.println
          ("file " ++ pathJoin [storeIncorrectConfigName.UsedEnvironmentDirectory,
            (⟨"4af1705c-c48f-4ca2-be08-53c673da835c", true⟩ : FileInfo).Name,
            DefaultEnvironmentConfigFileName] ++ " does not exist!")) ∧
      List.Forall₂ (holdsRecord yamlV2 storeIncorrectConfigName)
        ((([⟨"45764648-162a-4526-bdd0-71a438fd6ceb", true⟩] : List FileInfo) ++ []).filter
          fun i => i.IsDir)
        environments ∧
      environments.length + 1 =
        ((([⟨"45764648-162a-4526-bdd0-71a438fd6ceb", true⟩] : List FileInfo) ++
          (⟨"4af1705c-c48f-4ca2-be08-53c673da835c", true⟩ : FileInfo) :: []).filter
            fun i => i.IsDir).length :=
  GetAll_skips_missing_config yamlV2 storeIncorrectConfigName
    [⟨"45764648-162a-4526-bdd0-71a438fd6ceb", true⟩] []
    ⟨"4af1705c-c48f-4ca2-be08-53c673da835c", true⟩ (by decide) rfl ⟨uuidE1, by decide⟩
    (by decide)
    (by
      intro i hi _
      simp only [List.append_nil, List.mem_singleton] at hi
      subst hi
      exact ⟨uuidE2, some ⟨"e2", uuidE2⟩, by decide, recordE2, ⟨"e2", uuidE2⟩, by decide,
        by decide, rfl⟩)

/-! ## Creating -/

theorem uuidNew_ne_Nil (rnd : UUID) : uuidNew rnd ≠ UUID.Nil := by
  intro h
  have h6 := congrArg (fun u => u.b6.val) h
  simp [uuidNew, UUID.Nil] at h6

theorem lookupName_append_none {α : Type} (name : String) (l : List (String × α)) (x : α)
    (h : lookupName name l = none) : lookupName name (l ++ [(name, x)]) = some x := by
  induction l with
  | nil => simp [lookupName]
  | cons p l ih =>
    obtain ⟨n, y⟩ := p
    by_cases hn : n = name
    · simp [lookupName, hn] at h
    · simp only [lookupName, hn, if_false] at h
      simp [lookupName, hn, ih h]

/-- When `Create(name)` returns, and the decoder gives the created
environment back on the bytes the encoder writes for it, then the random
source has given sixteen bytes; the environment returned has the given name
and the identifier `uuid.New` makes of those bytes, which is not the nil
UUID; the error returned is nil; the record file of the identifier exists in
the store `Create` leaves and holds the encoded environment; and `Get` of
the identifier on that store returns the created environment with a nil
error. -/
theorem Create_returns_saved_environment (Y : YamlCodec) (name : String) (rnd : Option UUID)
    (w w1 : World) (r : Option Environment × Option Error)
    (h : Create Y name rnd w = .returned r w1)
    (hcodec : ∀ bytes data, rnd = some bytes → Y.Marshal ⟨name, uuidNew bytes⟩ = .ok data →
      Y.Decode data = .ok (some ⟨name, uuidNew bytes⟩)) :
    ∃ bytes data, rnd = some bytes ∧ r = (some ⟨name, uuidNew bytes⟩, none) ∧
      uuidNew bytes ≠ UUID.Nil ∧
      Y.Marshal ⟨name, uuidNew bytes⟩ = .ok data ∧
      w1.walk (uuidNew bytes).String DefaultEnvironmentConfigFileName = .ok (.file data) ∧
      Get Y (uuidNew bytes) w1 = ((some ⟨name, uuidNew bytes⟩, none), w1) := by
  unfold Create at h
  cases rnd with
  | none => simp at h
  | some bytes =>
    simp only at h
    split at h
    · simp at h
    · rename_i u w2 hens
      split at h
      · simp at h
      · rename_i w3 hsave
        simp only [Outcome.returned.injEq] at h
        obtain ⟨hr, hw⟩ := h
        subst hw
        obtain ⟨data, hdata, hwalk⟩ := Save_ok Y _ _ _ hsave
        refine ⟨bytes, data, rfl, hr.symm, uuidNew_ne_Nil bytes, hdata, hwalk, ?_⟩
        exact Get_after_Save Y ⟨name, uuidNew bytes⟩ w2 w3 hsave (hcodec bytes · rfl)

/-- The case `correct` of `Test_create`, the random source giving the bytes of `b03bb900-5d49-4421-a45e-eeeb40e0a5d5`, on an empty store. -/
theorem Create_returns_saved_environment_witness :
    ∃ bytes data, some uuidCreate = some bytes ∧
      ((some ⟨"e1", uuidCreate⟩, none) : Option Environment × Option Error) =
        (some ⟨"e1", uuidNew bytes⟩, none) ∧
      uuidNew bytes ≠ UUID.Nil ∧
      yamlV2.Marshal ⟨"e1", uuidNew bytes⟩ = .ok data ∧
      (testWorld [("b03bb900-5d49-4421-a45e-eeeb40e0a5d5", .dir [("config.yaml",
        .file "name: e1\nuuid: b03bb900-5d49-4421-a45e-eeeb40e0a5d5\n")])]).walk
          (uuidNew bytes).String DefaultEnvironmentConfigFileName = .ok (.file data) ∧
      Get yamlV2 (uuidNew bytes)
        (testWorld [("b03bb900-5d49-4421-a45e-eeeb40e0a5d5", .dir [("config.yaml",
          .file "name: e1\nuuid: b03bb900-5d49-4421-a45e-eeeb40e0a5d5\n")])]) =
        ((some ⟨"e1", uuidNew bytes⟩, none),
          testWorld [("b03bb900-5d49-4421-a45e-eeeb40e0a5d5", .dir [("config.yaml",
            .file "name: e1\nuuid: b03bb900-5d49-4421-a45e-eeeb40e0a5d5\n")])]) :=
  Create_returns_saved_environment yamlV2 "e1" (some uuidCreate) (testWorld []) _ _
    (by decide)
    (by intro bytes data hb hm; cases hb; cases hm; decide)

/-- `Create` does return when the random source gives its bytes, the encoder
gives its own, no regular file stands where the directory of the environment
goes and no directory where its record goes. -/
theorem Create_returns (Y : YamlCodec) (name : String) (bytes : UUID) (w : World) (data : String)
    (hdata : Y.Marshal ⟨name, uuidNew bytes⟩ = .ok data)
    (hfree : w.walk (uuidNew bytes).String DefaultEnvironmentConfigFileName ≠ .error .ENOTDIR ∧
      w.walk (uuidNew bytes).String DefaultEnvironmentConfigFileName ≠ .ok .dir) :
    ∃ w1, Create Y name (some bytes) w = .returned (some ⟨name, uuidNew bytes⟩, none) w1 := by
  obtain ⟨h1, h2⟩ := hfree
  unfold World.walk at h1 h2
  simp only [Create, EnsureDirectory, Environment.Save, hdata, ioutilWriteFile]
  cases hes : w.entries with
  | none => simp [lookupName]
  | some es =>
    rw [hes] at h1 h2
    simp only at h1 h2
    cases hd : lookupName (uuidNew bytes).String es with
    | none => simp [hd, lookupName_append_none _ _ _ hd, lookupName]
    | some x =>
      rw [hd] at h1 h2
      cases x with
      | file c => simp at h1
      | dir cs =>
        cases hf : lookupName DefaultEnvironmentConfigFileName cs with
        | none => simp [hes, hd, hf]
        | some c =>
          simp only [hf, ne_eq, Except.ok.injEq] at h2
          cases c with
          | file c => simp [hes, hd, hf]
          | dir => exact absurd rfl h2

/-! ## The model of yaml.v2 decodes what it encodes -/

theorem yamlLines_append (a : List Char) (ha : ∀ c ∈ a, c ≠ '\n') :
    ∀ (cur rest : List Char), cur ++ a ≠ [] →
      yamlLines (a ++ '\n' :: rest) cur = (cur ++ a) :: yamlLines rest [] := by
  induction a with
  | nil =>
    intro cur rest hne
    simp only [List.append_nil] at hne
    simp [yamlLines, hne]
  | cons c a ih =>
    intro cur rest hne
    have hc : c ≠ '\n' := ha c (List.mem_cons_self _ _)
    have h := ih (fun x hx => ha x (List.mem_cons_of_mem _ hx)) (cur ++ [c]) rest (by simp)
    rw [List.cons_append, yamlLines]
    simp only [hc, if_false]
    rw [h]
    simp

theorem hexDigit_ne_newline (n : Fin 16) : hexDigit n ≠ '\n' := by
  revert n; decide

theorem encodeHex_no_newline (u : UUID) : ∀ c ∈ encodeHex u, c ≠ '\n' := by
  intro c hc
  simp only [encodeHex, hexByte, List.mem_append, List.mem_cons, List.mem_singleton,
    List.not_mem_nil, or_false] at hc
  rcases hc with ((((((((((((((((((((h | h) | h) | h) | h) | h) | h) | h) | h) | h) | h) | h) | h) | h) | h) | h) | h) | h) | h) | h) | h) <;>
    first
    | (rcases h with h | h <;> subst h <;> exact hexDigit_ne_newline _)
    | (subst h; decide)
    | (subst h; exact hexDigit_ne_newline _)


theorem plainWord_no_newline (s : String) (h : isPlainWord s = true) : ∀ c ∈ s.toList, c ≠ '\n' := by
  unfold isPlainWord at h
  cases hs : s.toList with
  | nil => simp
  | cons c t =>
    rw [hs] at h
    simp only [Bool.and_eq_true, List.all_eq_true] at h
    obtain ⟨⟨⟨⟨h1, h2⟩, _⟩, _⟩, _⟩ := h
    intro x hx
    rcases List.mem_cons.1 hx with rfl | hx2
    · intro hx3; subst hx3; revert h1; decide
    · intro hx3; subst hx3; have := h2 _ hx2; revert this; decide

theorem nullWords_resolveWords (s : String) (h : resolveWords.contains s = false) :
    nullWords.contains s = false := by
  cases hn : nullWords.contains s with
  | false => rfl
  | true =>
    have hmem : s ∈ nullWords := by simpa using hn
    have hres : s ∈ resolveWords := by
      simp only [nullWords, List.mem_cons, List.mem_singleton, List.not_mem_nil, or_false] at hmem
      rcases hmem with rfl | rfl | rfl <;> decide
    have : resolveWords.contains s = true := by simpa using hres
    rw [h] at this
    exact absurd this (by decide)

theorem plainWord_plainText (s : String) (h : isPlainWord s = true) :
    isPlainText s.toList = true ∧ nullWords.contains s = false := by
  unfold isPlainWord at h
  unfold isPlainText
  cases hs : s.toList with
  | nil => rw [hs] at h; simp at h
  | cons c t =>
    rw [hs] at h
    simp only [Bool.and_eq_true] at h
    obtain ⟨⟨⟨⟨h1, h2⟩, h3⟩, _⟩, h5⟩ := h
    refine ⟨?_, nullWords_resolveWords s (by simpa using h5)⟩
    simp only [Bool.and_eq_true]
    refine ⟨⟨?_, h2⟩, h3⟩
    simp only [Bool.or_eq_true] at h1 ⊢
    rcases h1 with h | h
    · exact Or.inl (Or.inl h)
    · exact Or.inr h

theorem yamlDecodeString_yamlString (name : String) (h : name = "" ∨ isPlainWord name = true) :
    yamlDecodeString (yamlString name).toList = .ok name := by
  rcases h with rfl | h
  · decide
  · have h2 : String.mk name.toList = name := rfl
    obtain ⟨h3, h4⟩ := plainWord_plainText name h
    have h5 : yamlString name = name := by simp [yamlString, h]
    rw [h5]
    unfold yamlDecodeString
    rw [if_pos h3, h2, h4]
    rfl

theorem yamlString_no_newline (name : String) (h : name = "" ∨ isPlainWord name = true) :
    ∀ c ∈ (yamlString name).toList, c ≠ '\n' := by
  rcases h with rfl | h
  · decide
  · simpa [yamlString, h] using plainWord_no_newline name h

/-- The model of yaml.v2 decodes what it encodes, for every identifier and
every name that is empty or a plain name. -/
theorem yamlV2_round_trip (name : String) (u : UUID) (h : name = "" ∨ isPlainWord name = true)
    (data : String) (hm : yamlV2.Marshal ⟨name, u⟩ = .ok data) :
    yamlV2.Decode data = .ok (some ⟨name, u⟩) := by
  simp only [yamlV2, yamlMarshal, Except.ok.injEq] at hm
  subst hm
  have h1 : ("name: " ++ yamlString name ++ "\nuuid: " ++ u.String ++ "\n").toList =
      ("name: ".toList ++ (yamlString name).toList) ++ '\n' ::
        (("uuid: ".toList ++ encodeHex u) ++ '\n' :: []) := by
    simp [String.toList, UUID.String]
  have hl1 : ∀ c ∈ "name: ".toList ++ (yamlString name).toList, c ≠ '\n' := by
    intro c hc
    rcases List.mem_append.1 hc with hc | hc
    · exact (by decide : ∀ x ∈ "name: ".toList, x ≠ '\n') c hc
    · exact yamlString_no_newline name h c hc
  have hl2 : ∀ c ∈ "uuid: ".toList ++ encodeHex u, c ≠ '\n' := by
    intro c hc
    rcases List.mem_append.1 hc with hc | hc
    · exact (by decide : ∀ x ∈ "uuid: ".toList, x ≠ '\n') c hc
    · exact encodeHex_no_newline u c hc
  have hu : uuidParse (String.mk (encodeHex u)) = .ok u := uuidParse_String u
  simp only [yamlV2, yamlDecode, h1]
  rw [yamlLines_append _ hl1 [] _ (by simp [String.toList]),
    yamlLines_append _ hl2 [] _ (by simp [String.toList])]
  simp [yamlLines, yamlFields, yamlKeyValue, String.toList, hu,
    Except.map]
  have hd := yamlDecodeString_yamlString name h
  simp only [String.toList] at hd
  rw [hd]

end environment

namespace docker

open environment (Error pathJoin goBytes)

/-! ## Running a job -/

theorem mountsLoop_eq (mountPath : String) (ms : List String) :
    ∀ mounts, mountsLoop mountPath ms mounts =
      mounts ++ ms.map fun m => { MountType := TypeBind, Source := pathJoin [mountPath, m], Target := m } := by
  induction ms with
  | nil => intro mounts; simp [mountsLoop]
  | cons m rest ih => intro mounts; simp [mountsLoop, ih]

/-- C12: for every job and every engine for which a client is made, the first
call `run` makes is the creation request, and the bind-mount list of that
request is the list `job.Mounts` mapped in order, of the same length, its
`i`-th element being a mount of type `bind` whose source is `path.Join` of
`job.MountPath` and the `i`-th mount path and whose target is that mount
path itself. -/
theorem run_bind_mounts {σ : Type} (E : Engine σ) (s : σ) (job : Job)
    (hclient : E.NewEnvClient = none) :
    (run E s job).2.calls.head? =
        some (.containerCreate (containerConfig job) (hostConfig job) "") ∧
      (hostConfig job).Mounts.length = job.Mounts.length ∧
      ∀ i (h : i < job.Mounts.length),
        (hostConfig job).Mounts[i]? =
          some { MountType := TypeBind, Source := pathJoin [job.MountPath, job.Mounts[i]],
                 Target := job.Mounts[i] } := by
  have hm : (hostConfig job).Mounts = job.Mounts.map fun m =>
      ({ MountType := TypeBind, Source := pathJoin [job.MountPath, m], Target := m } : Mount) := by
    simp [hostConfig, mountsLoop_eq]
  refine ⟨?_, ?_, ?_⟩
  · unfold run
    rw [hclient]
    simp only
    split
    · rfl
    · split
      · simp [removeFinishedContainer]; split <;> simp [warnRemovingContainer]
      · split <;> (simp [removeFinishedContainer]; split <;> simp [warnRemovingContainer])
  · rw [hm]; simp
  · intro i h
    rw [hm]
    simp [List.getElem?_map, List.getElem?_eq_getElem h]

/-- C12 (witness): the job `echo hi` on an engine that serves it. -/
theorem run_bind_mounts_witness :
    (run engineRemoveFails () jobEcho).2.calls.head? =
        some (.containerCreate (containerConfig jobEcho) (hostConfig jobEcho) "") ∧
      (hostConfig jobEcho).Mounts.length = jobEcho.Mounts.length ∧
      ∀ i (h : i < jobEcho.Mounts.length),
        (hostConfig jobEcho).Mounts[i]? =
          some { MountType := TypeBind, Source := pathJoin [jobEcho.MountPath, jobEcho.Mounts[i]],
                 Target := jobEcho.Mounts[i] } :=
  run_bind_mounts engineRemoveFails () jobEcho rfl

theorem calls_removeFinishedContainer {σ : Type} (E : Engine σ) (eff : RunEffects σ)
    (containerID : String) :
    (removeFinishedContainer E eff containerID).calls =
      eff.calls ++ [.containerRemove containerID] := by
  unfold removeFinishedContainer
  split <;> rfl

/-- The outcome `run` has without the removal: the error of the start, else
the error of the log attach, else success (a panic on a nil log reader). -/
theorem run_result {σ : Type} (E : Engine σ) (s s1 : σ) (job : Job) (c : String)
    (hclient : E.NewEnvClient = none)
    (hcreate : E.ContainerCreate s (containerConfig job) (hostConfig job) = (.ok c, s1)) :
    (run E s job).1 =
      match E.ContainerStart s1 c with
      | (some err, _) => .returned (some err)
      | (none, s2) =>
        match E.ContainerLogs s2 c with
        | ((_, some err), _) => .returned (some err)
        | ((none, none), _) => .panicked
        | ((some _, none), _) => .returned none := by
  unfold run
  rw [hclient]
  simp only [hcreate]
  rcases h1 : E.ContainerStart s1 c with ⟨_ | err, s2⟩
  · simp only
    rcases h2 : E.ContainerLogs s2 c with ⟨⟨_ | out, _ | err⟩, s3⟩ <;> rfl
  · rfl

/-- What the deferred removal leaves: the engine after its `ContainerRemove`,
that call at the end of the calls, and the error of the call, if any, among
the warnings. -/
theorem removeFinishedContainer_eq {σ : Type} (E : Engine σ) (eff : RunEffects σ)
    (containerID : String) :
    removeFinishedContainer E eff containerID =
      { engine := (E.ContainerRemove eff.engine containerID).2
        calls := eff.calls ++ [.containerRemove containerID]
        stdout := eff.stdout
        stderr := eff.stderr
        warnings := eff.warnings ++ (E.ContainerRemove eff.engine containerID).1.toList } := by
  unfold removeFinishedContainer
  rcases h : E.ContainerRemove eff.engine containerID with ⟨_ | err, s⟩
  · simp
  · simp [warnRemovingContainer]

/-- C11: when a client is made and the create call succeeds with the
container `c`, the calls `run` makes end with one removal of `c`, no call
before it being a removal. On each way out (the start fails; the start
succeeds and the log attach fails; both succeed and the log stream has been
relayed) `run` returns the error of the start, the error of the attach, or
nil; the calls are the create, the start, the attach where it was reached,
and the removal last; the engine is left in the state its `ContainerRemove`
of `c` gives from the state after the last of those calls; and the warnings
are the error of that removal, if it has one. What `run` returns is the same
for every answer of the engine to the removal. -/
theorem run_removes_created_container {σ : Type} (E : Engine σ) (s s1 : σ) (job : Job)
    (c : String) (hclient : E.NewEnvClient = none)
    (hcreate : E.ContainerCreate s (containerConfig job) (hostConfig job) = (.ok c, s1)) :
    (∃ earlier, (run E s job).2.calls = earlier ++ [.containerRemove c] ∧
        ∀ x ∈ earlier, ∀ id, x ≠ .containerRemove id) ∧
      (∀ err s2, E.ContainerStart s1 c = (some err, s2) →
        (run E s job).1 = .returned (some err) ∧
        (run E s job).2.calls =
          [.containerCreate (containerConfig job) (hostConfig job) "", .containerStart c,
            .containerRemove c] ∧
        (run E s job).2.engine = (E.ContainerRemove s2 c).2 ∧
        (run E s job).2.warnings = (E.ContainerRemove s2 c).1.toList) ∧
      (∀ s2 r err s3, E.ContainerStart s1 c = (none, s2) →
        E.ContainerLogs s2 c = ((r, some err), s3) →
        (run E s job).1 = .returned (some err) ∧
        (run E s job).2.calls =
          [.containerCreate (containerConfig job) (hostConfig job) "", .containerStart c,
            .containerLogs c, .containerRemove c] ∧
        (run E s job).2.engine = (E.ContainerRemove s3 c).2 ∧
        (run E s job).2.warnings = (E.ContainerRemove s3 c).1.toList) ∧
      (∀ s2 out s3, E.ContainerStart s1 c = (none, s2) →
        E.ContainerLogs s2 c = ((some out, none), s3) →
        (run E s job).1 = .returned none ∧
        (run E s job).2.calls =
          [.containerCreate (containerConfig job) (hostConfig job) "", .containerStart c,
            .containerLogs c, .containerRemove c] ∧
        (run E s job).2.engine = (E.ContainerRemove s3 c).2 ∧
        (run E s job).2.warnings = (E.ContainerRemove s3 c).1.toList ∧
        (run E s job).2.stdout = out.stdout ∧ (run E s job).2.stderr = out.stderr) ∧
      (∀ remove, (run { E with ContainerRemove := remove } s job).1 = (run E s job).1) := by
  refine ⟨?_, ?_, ?_, ?_, ?_⟩
  · unfold run
    rw [hclient]
    simp only [hcreate]
    split
    · exact ⟨_, calls_removeFinishedContainer _ _ _, by simp⟩
    · split
      · exact ⟨_, calls_removeFinishedContainer _ _ _, by simp⟩
      · exact ⟨_, calls_removeFinishedContainer _ _ _, by simp⟩
      · exact ⟨_, calls_removeFinishedContainer _ _ _, by simp⟩
  · intro err s2 h
    refine ⟨by rw [run_result E s s1 job c hclient hcreate, h], ?_⟩
    unfold run
    rw [hclient]
    simp only [hcreate, h, removeFinishedContainer_eq]
    simp
  · intro s2 r err s3 h1 h2
    refine ⟨by rw [run_result E s s1 job c hclient hcreate, h1]; simp only [h2], ?_⟩
    unfold run
    rw [hclient]
    simp only [hcreate, h1, h2, removeFinishedContainer_eq]
    simp
  · intro s2 out s3 h1 h2
    refine ⟨by rw [run_result E s s1 job c hclient hcreate, h1]; simp only [h2], ?_⟩
    unfold run
    rw [hclient]
    simp only [hcreate, h1, h2, removeFinishedContainer_eq]
    simp
  · intro remove
    rw [run_result E s s1 job c hclient hcreate,
      run_result { E with ContainerRemove := remove } s s1 job c hclient hcreate]

/-- C11 (witness): the job `echo hi` on the engine that lists its containers,
empty at first: the create puts `c1` on the list, and after the run the calls
end with the removal of `c1` and the list is empty again. -/
theorem run_removes_created_container_witness :
    (∃ earlier, (run engineListing [] jobEcho).2.calls = earlier ++ [.containerRemove "c1"] ∧
        ∀ x ∈ earlier, ∀ id, x ≠ .containerRemove id) ∧
      (∀ err s2, engineListing.ContainerStart ["c1"] "c1" = (some err, s2) →
        (run engineListing [] jobEcho).1 = .returned (some err) ∧
        (run engineListing [] jobEcho).2.calls =
          [.containerCreate (containerConfig jobEcho) (hostConfig jobEcho) "",
            .containerStart "c1", .containerRemove "c1"] ∧
        (run engineListing [] jobEcho).2.engine = (engineListing.ContainerRemove s2 "c1").2 ∧
        (run engineListing [] jobEcho).2.warnings =
          (engineListing.ContainerRemove s2 "c1").1.toList) ∧
      (∀ s2 r err s3, engineListing.ContainerStart ["c1"] "c1" = (none, s2) →
        engineListing.ContainerLogs s2 "c1" = ((r, some err), s3) →
        (run engineListing [] jobEcho).1 = .returned (some err) ∧
        (run engineListing [] jobEcho).2.calls =
          [.containerCreate (containerConfig jobEcho) (hostConfig jobEcho) "",
            .containerStart "c1", .containerLogs "c1", .containerRemove "c1"] ∧
        (run engineListing [] jobEcho).2.engine = (engineListing.ContainerRemove s3 "c1").2 ∧
        (run engineListing [] jobEcho).2.warnings =
          (engineListing.ContainerRemove s3 "c1").1.toList) ∧
      (∀ s2 out s3, engineListing.ContainerStart ["c1"] "c1" = (none, s2) →
        engineListing.ContainerLogs s2 "c1" = ((some out, none), s3) →
        (run engineListing [] jobEcho).1 = .returned none ∧
        (run engineListing [] jobEcho).2.calls =
          [.containerCreate (containerConfig jobEcho) (hostConfig jobEcho) "",
            .containerStart "c1", .containerLogs "c1", .containerRemove "c1"] ∧
        (run engineListing [] jobEcho).2.engine = (engineListing.ContainerRemove s3 "c1").2 ∧
        (run engineListing [] jobEcho).2.warnings =
          (engineListing.ContainerRemove s3 "c1").1.toList ∧
        (run engineListing [] jobEcho).2.stdout = out.stdout ∧
        (run engineListing [] jobEcho).2.stderr = out.stderr) ∧
      (∀ remove, (run { engineListing with ContainerRemove := remove } [] jobEcho).1 =
        (run engineListing [] jobEcho).1) :=
  run_removes_created_container engineListing [] ["c1"] jobEcho "c1" rfl rfl

/-- The run of the witness leaves no container in the engine and has
relayed the log; with the engine whose removal fails, the failure is a
warning and `run` still returns nil. -/
theorem run_echo_evaluated :
    (run engineListing [] jobEcho).2.engine = [] ∧
      (run engineListing [] jobEcho).2.stdout = "hi\n" ∧
      (run engineRemoveFails () jobEcho).1 = .returned none ∧
      (run engineRemoveFails () jobEcho).2.warnings = [.text "removal failed"] := by
  decide

/-! ## Pulling an image -/

theorem goBytes_append (a b : String) : goBytes (a ++ b) = goBytes a ++ goBytes b := by
  simp [goBytes, String.toList]

theorem Scanner.feed_fits (bytes : List Nat) :
    ∀ (sc : Scanner) (rest : List Nat),
      linesFit sc.maxTokenSize sc.line.length (bytes ++ rest) = true →
      ∃ sc1, sc.feed bytes = (sc1, []) ∧ sc1.maxTokenSize = sc.maxTokenSize ∧
        linesFit sc1.maxTokenSize sc1.line.length rest = true := by
  induction bytes with
  | nil => intro sc rest h; exact ⟨sc, rfl, rfl, h⟩
  | cons b bytes ih =>
    intro sc rest h
    simp only [List.cons_append, linesFit, Bool.and_eq_true, decide_eq_true_eq] at h
    obtain ⟨hlt, h2⟩ := h
    have hnot : ¬ sc.maxTokenSize ≤ sc.line.length := by omega
    unfold Scanner.feed
    simp only [hnot, if_false]
    by_cases hb : b = 10
    · simp only [hb, if_true] at h2 ⊢
      exact ih { sc with line := [], tokens := sc.tokens ++ [dropCR sc.line] } rest h2
    · simp only [hb, if_false] at h2 ⊢
      exact ih { sc with line := sc.line ++ [b] } rest (by simpa using h2)

theorem pullCopy_fits (chunks : List String) :
    ∀ (st : Copying), st.stuck = false →
      linesFit st.scanner.maxTokenSize st.scanner.line.length (goBytes (streamText chunks)) =
        true →
      (pullCopy chunks st).stuck = false ∧ (pullCopy chunks st).buf = st.buf ++ streamText chunks := by
  induction chunks with
  | nil => intro st hs _; simp [pullCopy, streamText, hs]
  | cons chunk rest ih =>
    intro st hs h
    unfold pullCopy
    by_cases hc : chunk = ""
    · subst hc
      simp only [if_true]
      have h2 : streamText ("" :: rest) = streamText rest := by simp [streamText]
      rw [h2] at h ⊢
      exact ih st hs h
    · simp only [hc, if_false]
      simp only [streamText, goBytes_append] at h
      obtain ⟨sc1, hfeed, hmax, hfit⟩ := Scanner.feed_fits (goBytes chunk) st.scanner _ h
      rw [hfeed]
      simp only
      have := ih { scanner := sc1, buf := st.buf ++ chunk, stuck := false } rfl hfit
      refine ⟨this.1, ?_⟩
      rw [this.2]
      simp [streamText, String.append_assoc]

theorem streamText_ne_empty (chunks : List String) (h : ∃ chunk ∈ chunks, chunk ≠ "") :
    streamText chunks ≠ "" := by
  induction chunks with
  | nil => simp at h
  | cons c rest ih =>
    intro he
    have hd : (c ++ streamText rest).data = [] := by
      simp only [streamText] at he
      rw [he]
    simp only [String.data_append, List.append_eq_nil] at hd
    obtain ⟨x, hx, hne⟩ := h
    rcases List.mem_cons.1 hx with rfl | hx2
    · exact hne (String.ext hd.1)
    · exact ih ⟨x, hx2, hne⟩ (String.ext hd.2)

/-- When the pull call returns a reader, no line of whose stream is
`bufio.MaxScanTokenSize` bytes or longer, `Pull` returns the whole text read
from the stream, however the stream ends, together with the error the pull
call returned, nil with the client of the package; when some read of the
stream gave bytes, the text is not the empty string. -/
theorem Pull_returns_text {σ : Type} (E : Engine σ) (s s1 : σ) (i : Image)
    (reader : PullStream) (err : Option Error) (hclient : E.NewEnvClient = none)
    (hpull : E.ImagePull s i.Name = ((some reader, err), s1))
    (hlines : linesFit MaxScanTokenSize 0 (goBytes (streamText reader.chunks)) = true) :
    (i.Pull E s).1 = .returned (streamText reader.chunks) err ∧
      ((∃ chunk ∈ reader.chunks, chunk ≠ "") → streamText reader.chunks ≠ "") := by
  refine ⟨?_, streamText_ne_empty reader.chunks⟩
  have h := pullCopy_fits reader.chunks { scanner := NewScanner, buf := "", stuck := false } rfl
    hlines
  unfold Image.Pull
  rw [hclient]
  simp only [hpull, h.1, h.2]
  simp

/-- C13 (the code at the failing inputs): when the pull starts, gives two
chunks of progress text and then breaks with a read error, `Pull` returns
the text with a nil error: the read error is dropped; and when the pull call
itself fails, the client returns no reader, `Pull` dereferences it and the
process dies without returning the error. -/
theorem Pull_does_not_return_the_error :
    enginePullBreaks.ImagePull () "img" =
        ((some ⟨progressChunks, some (.text "reset")⟩, none), ()) ∧
      ((⟨"img"⟩ : Image).Pull enginePullBreaks ()).1 =
        .returned "\x7b\"status\":\"Pulling\"\x7d\n\x7b\"status\":\"Dow" none ∧
      enginePullFails.ImagePull () "img" = ((none, some (.text "pull failed")), ()) ∧
      ((⟨"img"⟩ : Image).Pull enginePullFails ()).1 = .crashed := by
  decide

theorem goBytes_replicate (n : Nat) :
    goBytes (String.mk (List.replicate n 'a')) = List.replicate n 97 := by
  induction n with
  | zero => rfl
  | succ n ih =>
    simp only [goBytes, String.toList, List.replicate_succ, List.flatMap_cons] at ih ⊢
    rw [ih]
    rfl

theorem Scanner.feed_replicate (n : Nat) :
    ∀ (sc : Scanner), sc.line.length + n ≤ sc.maxTokenSize →
      sc.feed (List.replicate n 97) = ({ sc with line := sc.line ++ List.replicate n 97 }, []) := by
  induction n with
  | zero => intro sc _; simp [Scanner.feed]
  | succ n ih =>
    intro sc h
    have hnot : ¬ sc.maxTokenSize ≤ sc.line.length := by omega
    rw [List.replicate_succ, Scanner.feed]
    simp only [hnot, if_false, Nat.reduceEqDiff]
    rw [ih { sc with line := sc.line ++ [97] } (by simp; omega)]
    simp

/-- A line of `n + n + 1` bytes, read in two chunks of `n` bytes and one of
one byte by a scanner whose buffer holds `n + n` bytes, leaves the copy stuck. -/
theorem pullCopy_long_line (n : Nat) (hn : 0 < n) (sc : Scanner) (hline : sc.line = [])
    (hmax : sc.maxTokenSize = n + n) (buf : String) :
    (pullCopy [String.mk (List.replicate n 'a'), String.mk (List.replicate n 'a'), "a"]
      { scanner := sc, buf := buf, stuck := false }).stuck = true := by
  have hne : String.mk (List.replicate n 'a') ≠ "" := by
    intro h
    have h2 : List.replicate n 'a' = [] := congrArg String.data h
    have h3 := congrArg List.length h2
    simp at h3
    omega
  have h1 : sc.feed (List.replicate n 97) =
      ({ sc with line := sc.line ++ List.replicate n 97 }, []) :=
    Scanner.feed_replicate n sc (by rw [hline, hmax]; simp)
  have h2 : Scanner.feed { sc with line := sc.line ++ List.replicate n 97 }
      (List.replicate n 97) =
      ({ sc with line := sc.line ++ List.replicate n 97 ++ List.replicate n 97 }, []) :=
    Scanner.feed_replicate n _ (by simp [hline, hmax])
  have hb : goBytes "a" = [97] := by decide
  have h3 : Scanner.feed
      { sc with line := sc.line ++ List.replicate n 97 ++ List.replicate n 97 } [97] =
      ({ sc with line := sc.line ++ List.replicate n 97 ++ List.replicate n 97 }, [97]) := by
    rw [Scanner.feed]
    simp [hline, hmax]
  have ha : ("a" : String) ≠ "" := by decide
  simp only [pullCopy, hne, ha, if_false, goBytes_replicate, hb, h1, h2, h3]

/-- A copy that gets stuck keeps `Pull` from returning. -/
theorem Pull_blocked_of_stuck {σ : Type} (E : Engine σ) (s s1 : σ) (i : Image)
    (reader : PullStream) (err : Option Error) (hclient : E.NewEnvClient = none)
    (hpull : E.ImagePull s i.Name = ((some reader, err), s1))
    (hstuck : (pullCopy reader.chunks
      { scanner := NewScanner, buf := "", stuck := false }).stuck = true) :
    (i.Pull E s).1 = .blocked := by
  unfold Image.Pull
  rw [hclient]
  simp only [hpull, hstuck, if_true]

/-- When the pull gives, in reads of 32 KiB, a line of 65537 bytes, the
scanner gives up when its buffer is full, the copy stays in the write of
the last byte, and `Pull` does not return. -/
theorem Pull_blocks_on_long_line :
    enginePullLongLine.ImagePull () "img" =
        ((some ⟨[String.mk (List.replicate 32768 'a'), String.mk (List.replicate 32768 'a'),
          "a"], none⟩, none), ()) ∧
      ((⟨"img"⟩ : Image).Pull enginePullLongLine ()).1 = .blocked := by
  refine ⟨rfl, ?_⟩
  exact Pull_blocked_of_stuck enginePullLongLine () () ⟨"img"⟩ _ _ rfl rfl
    (pullCopy_long_line 32768 (by decide) NewScanner rfl rfl "")

/-- When the pull call returns no reader, as the client does on a failure,
the copy dereferences the nil reader and the process dies: `Pull` returns
neither a text nor the error. -/
theorem Pull_crashes_without_reader {σ : Type} (E : Engine σ) (s s1 : σ) (i : Image)
    (err : Option Error) (hclient : E.NewEnvClient = none)
    (hpull : E.ImagePull s i.Name = ((none, err), s1)) :
    (i.Pull E s).1 = .crashed := by
  unfold Image.Pull
  rw [hclient]
  simp only [hpull]

end docker
